import Mathlib

/-!
# litiv datasets: batch tree, index routing, progress counters, packet precacher

A shallow embedding of `modules/datasets/include/litiv/datasets/DatasetUtils.hpp`.

* `size_t` values that count or index packets are natural numbers: every value
  the program computes from them here is a count of packets that exist, so no
  execution reaches `2^64` of them.
* `cv::Mat` is an abstract packet (dimensions, channel count, payload).
* A handler tree is an inductive value; a `shared_ptr` to a child of a group is
  the position of that child in `getBatches()`.
* Methods that mutate the receiver return the new receiver next to the result.
* The buffer size of `startPrecaching` and the video reader cursor are computed
  in machine arithmetic (`int`, 64-bit `size_t`, and `double` for the seek
  target), since the claims about them depend on overflow and rounding.
* Calls into OpenCV and `PlatformUtils` are parameters (`Externals`); the video
  reader is a position over a list of decoded frames.
-/

namespace litiv

/-! ## Packets, errors, outcomes -/

/-- Packet content: the model of `cv::Mat`. -/
structure Mat where
  rows : Nat
  cols : Nat
  channels : Nat
  data : List Nat
deriving DecidableEq

/-- Error codes of `std::future_error` that `std::promise<size_t>` can raise. -/
inductive future_errc where
  | future_already_retrieved
  | promise_already_satisfied
deriving DecidableEq

/-- Exceptions thrown by the modelled code. -/
inductive Error where
  /-- An out-of-range packet index, or routing attempted on a non-group handler. -/
  | RangeError
  /-- The exception `std::future_error` with its code. -/
  | future_error (code : future_errc)
  /-- A failed `CV_Assert`. -/
  | assertion
  /-- The exception `std::runtime_error`. -/
  | runtime_error
deriving DecidableEq

/-- Outcome of a call that may wait on a future: it returns, it waits for a
completion signal that has not been given, or it throws. -/
inductive Await (α : Type) where
  | ready (v : α)
  | blocked
  | failed (e : Error)
deriving DecidableEq

/-! ## `std::promise<size_t>` -/

/-- State of a `std::promise<size_t>`: the value stored in its shared state (if
any), and whether `get_future` was already called on it. -/
structure StdPromise where
  value : Option Nat
  retrieved : Bool
deriving DecidableEq

/-- A default-constructed promise. -/
def StdPromise.fresh : StdPromise := { value := none, retrieved := false }

/-- The call `set_value(v)`: throws `promise_already_satisfied` when the shared
state already holds a value, and stores `v` otherwise. -/
def StdPromise.set_value (p : StdPromise) (v : Nat) : Except Error StdPromise :=
  match p.value with
  | some _ => .error (.future_error .promise_already_satisfied)
  | none => .ok { p with value := some v }

/-- The call `get_future()`: throws `future_already_retrieved` on a second call. -/
def StdPromise.get_future (p : StdPromise) : Except Error StdPromise :=
  if p.retrieved then .error (.future_error .future_already_retrieved)
  else .ok { p with retrieved := true }

/-! ## DataPrecacher -/

/-- State of a `DataPrecacher` (fields of the struct at lines 151-166). The
window `m_qoCache` holds the packets of indices
`[m_nFirstBufferIdx, m_nNextBufferIdx)`; `m_nBufferSize` is the capacity in
packets; `m_nLastReqIdx` is `none` until a first request was served. -/
structure DataPrecacher where
  m_lCallback : Nat → Mat
  m_bIsPrecaching : Bool
  m_nBufferSize : Nat
  m_nPacketCount : Nat
  m_qoCache : List Mat
  m_nFirstBufferIdx : Nat
  m_nNextBufferIdx : Nat
  m_nNextExpectedReqIdx : Nat
  m_nNextPrecacheIdx : Nat
  m_nReqIdx : Option Nat
  m_nLastReqIdx : Option Nat
  m_oReqPacket : Mat
  m_oLastReqPacket : Mat

/-- An empty `cv::Mat`. -/
def Mat.empty : Mat := { rows := 0, cols := 0, channels := 0, data := [] }

/-- Byte size of a packet (8-bit channels). -/
def Mat.byteSize (m : Mat) : Nat := m.rows * m.cols * m.channels

/-- Constructor `DataPrecacher(lCallback)`: not precaching, nothing buffered. -/
def DataPrecacher.new (lCallback : Nat → Mat) : DataPrecacher :=
  { m_lCallback := lCallback, m_bIsPrecaching := false, m_nBufferSize := 0,
    m_nPacketCount := 0, m_qoCache := [], m_nFirstBufferIdx := 0, m_nNextBufferIdx := 0,
    m_nNextExpectedReqIdx := 0, m_nNextPrecacheIdx := 0, m_nReqIdx := none,
    m_nLastReqIdx := none, m_oReqPacket := Mat.empty, m_oLastReqPacket := Mat.empty }

/-- Modelled from the spec: `DataPrecacher::startPrecaching` (only declared in the
header). It fails, spawning no worker, when the cache already runs or when
`nTotPacketCount` is zero; otherwise the capacity in packets is
`max 1 (budget / size of packet 0)`, the window is empty at index 0 and the
worker runs. -/
def DataPrecacher.startPrecaching (c : DataPrecacher) (nTotPacketCount nSuggestedBufferSize : Nat) :
    Bool × DataPrecacher :=
  if c.m_bIsPrecaching || nTotPacketCount == 0 then (false, c)
  else
    (true, { c with
      m_bIsPrecaching := true
      m_nPacketCount := nTotPacketCount
      m_nBufferSize := max 1 (nSuggestedBufferSize / (c.m_lCallback 0).byteSize)
      m_qoCache := []
      m_nFirstBufferIdx := 0
      m_nNextBufferIdx := 0
      m_nNextExpectedReqIdx := 0
      m_nNextPrecacheIdx := 0
      m_nReqIdx := none
      m_nLastReqIdx := none })

/-- Modelled from the spec: `DataPrecacher::getPacket` (only declared in the
header), in the three steps of the spec.
1. A repeat of the last requested index returns the last served packet.
2. An index inside `[m_nFirstBufferIdx, m_nNextBufferIdx)` is removed from the
   window and returned; the window then starts right after it, and
   `m_nNextExpectedReqIdx` becomes `nIdx + 1`.
3. Otherwise the packet is fetched through the callback, bypassing the window:
   the window and its two indices are left as they are, and only the production
   cursor `m_nNextPrecacheIdx` is reset to `nIdx + 1`.
The packet returned becomes the last served packet. -/
def DataPrecacher.getPacket (c : DataPrecacher) (nIdx : Nat) : Mat × DataPrecacher :=
  if c.m_nLastReqIdx = some nIdx then (c.m_oLastReqPacket, c)
  else if c.m_nFirstBufferIdx ≤ nIdx ∧ nIdx < c.m_nNextBufferIdx then
    let oPacket := (c.m_qoCache.drop (nIdx - c.m_nFirstBufferIdx)).headD Mat.empty
    (oPacket, { c with
      m_qoCache := c.m_qoCache.drop (nIdx - c.m_nFirstBufferIdx + 1)
      m_nFirstBufferIdx := nIdx + 1
      m_nNextExpectedReqIdx := nIdx + 1
      m_nReqIdx := some nIdx
      m_nLastReqIdx := some nIdx
      m_oReqPacket := oPacket
      m_oLastReqPacket := oPacket })
  else
    let oPacket := c.m_lCallback nIdx
    (oPacket, { c with
      m_nNextPrecacheIdx := nIdx + 1
      m_nReqIdx := some nIdx
      m_nLastReqIdx := some nIdx
      m_oReqPacket := oPacket
      m_oLastReqPacket := oPacket })

/-- The parts of `IDataset` read by the modelled methods. The scale factor, a
finite `double`, is the rational number it denotes. -/
structure IDataset where
  getResultsNamePrefix : String
  getResultsNameSuffix : String
  isSavingResults : Bool
  is4ByteAligned : Bool
  getScaleFactor : ℚ

/-- The type `cv::Size`. -/
structure Size where
  width : Nat
  height : Nat
deriving DecidableEq

/-- Model of `cv::VideoCapture`: whether a video is opened, its decoded frames,
the position of the frame decoded next (`CAP_PROP_POS_FRAMES`), which a seek
sets and each read advances by one, and the log of the seeks made so far. -/
structure VideoCapture where
  isOpened : Bool
  frames : List Mat
  pos : Nat
  seeks : List Nat

/-- A non-group handler (`TNoGroup`) of a video segmentation dataset: the state
of `IDataLoader_<TNoGroup>`, `IDataProducer_<eDatasetType_VideoSegm,TNoGroup>`
and `IDataCounter_<TNoGroup>`. -/
structure WorkBatch where
  getName : String
  getPath : String
  getResultsPath : String
  isGrayscale : Bool
  getDatasetInfo : IDataset
  m_nFrameCount : Nat
  m_vsInputFramePaths : List String
  m_voVideoReader : VideoCapture
  m_nNextExpectedVideoReaderFrameIdx : Nat
  m_oROI : Mat
  m_oOrigSize : Size
  m_oSize : Size
  m_oInputPrecacher : DataPrecacher
  m_oGTPrecacher : DataPrecacher
  m_nProcessedPackets : Nat
  m_nProcessedPacketsPromise : StdPromise

/-- A handler: a leaf work batch, or a group owning an ordered list of child
handlers (`getBatches()`). -/
inductive IDataHandler where
  | leaf (b : WorkBatch)
  | group (getBatches : List IDataHandler)

/-- The predicate `isGroup()`. -/
def IDataHandler.isGroup : IDataHandler → Bool
  | .leaf _ => false
  | .group _ => true

mutual
/-- The count `getTotPackets()`: `m_nFrameCount` on a leaf (line 213).
Modelled from the spec: on a group (implemented outside the header), the packet
count of a group is the sum of the counts of its children. -/
def IDataHandler.getTotPackets : IDataHandler → Nat
  | .leaf b => b.m_nFrameCount
  | .group cs => getTotPacketsOf cs
/-- Sum of `getTotPackets()` over a list of handlers. -/
def getTotPacketsOf : List IDataHandler → Nat
  | [] => 0
  | c :: cs => c.getTotPackets + getTotPacketsOf cs
end

/-- Modelled from the spec: the child walk of `getBatch`. Starting at the child
at position `k`, it subtracts the packet count of each child from the index
while the index is at least that count, moving on to the next child, until the
index falls within the range of one child; `none` when the children run out. -/
def getBatchWalk : List IDataHandler → Nat → Nat → Option (Nat × Nat)
  | [], _, _ => none
  | c :: cs, k, nPacketIdx =>
    if nPacketIdx ≥ c.getTotPackets then getBatchWalk cs (k + 1) (nPacketIdx - c.getTotPackets)
    else some (k, nPacketIdx)

/-- Modelled from the spec: `IDataHandler::getBatch` (pure virtual in the header,
documented there as: will throw if out of range or if handler is not a group,
and readjust nPacketIdx for returned batch range otherwise). It returns the
position of the selected child in `getBatches()` together with the readjusted
index. -/
def IDataHandler.getBatch : IDataHandler → Nat → Except Error (Nat × Nat)
  | .leaf _, _ => .error .RangeError
  | .group cs, nPacketIdx =>
    if nPacketIdx ≥ (IDataHandler.group cs).getTotPackets then .error .RangeError
    else
      match getBatchWalk cs 0 nPacketIdx with
      | some r => .ok r
      | none => .error .RangeError

/-! ## Frames -/

/-- Leaf `getInputFrame` (line 219): `m_oInputPrecacher.getPacket(nFrameIdx)`. -/
def WorkBatch.getInputFrame (b : WorkBatch) (nFrameIdx : Nat) : Mat × WorkBatch :=
  let r := b.m_oInputPrecacher.getPacket nFrameIdx
  (r.1, { b with m_oInputPrecacher := r.2 })

/-- Leaf `getGTFrame` (line 220): `m_oGTPrecacher.getPacket(nFrameIdx)`. -/
def WorkBatch.getGTFrame (b : WorkBatch) (nFrameIdx : Nat) : Mat × WorkBatch :=
  let r := b.m_oGTPrecacher.getPacket nFrameIdx
  (r.1, { b with m_oGTPrecacher := r.2 })

mutual
/-- The method `getInputFrame` of a handler. On a group (line 197) it is
`(*getBatch(nFrameIdx)).getInputFrame(nFrameIdx)`: `getBatch` readjusts
`nFrameIdx` in place before the child reads it (the object expression of a
member call is evaluated before its arguments), and the call dispatches to the
child, a leaf (line 219) or again a group. The result carries the tree with the
queried leaf updated. -/
def IDataHandler.getInputFrame : IDataHandler → Nat → Except Error (Mat × IDataHandler)
  | .leaf b, nFrameIdx => .ok ((b.getInputFrame nFrameIdx).1, .leaf (b.getInputFrame nFrameIdx).2)
  | .group cs, nFrameIdx =>
    match (IDataHandler.group cs).getBatch nFrameIdx with
    | .error e => .error e
    | .ok (k, nLocalIdx) =>
      match getInputFrameAt cs k nLocalIdx with
      | .error e => .error e
      | .ok (oFrame, cs1) => .ok (oFrame, .group cs1)
/-- Dereferences the pointer to the child at position `k` of `getBatches()` and
calls its `getInputFrame`; the child is updated in place. -/
def getInputFrameAt : List IDataHandler → Nat → Nat → Except Error (Mat × List IDataHandler)
  | [], _, _ => .error .RangeError
  | c :: cs, 0, nFrameIdx =>
    match c.getInputFrame nFrameIdx with
    | .error e => .error e
    | .ok (oFrame, c1) => .ok (oFrame, c1 :: cs)
  | c :: cs, k + 1, nFrameIdx =>
    match getInputFrameAt cs k nFrameIdx with
    | .error e => .error e
    | .ok (oFrame, cs1) => .ok (oFrame, c :: cs1)
end

mutual
/-- The method `getGTFrame` of a handler; on a group (line 198) it routes like
`getInputFrame`. -/
def IDataHandler.getGTFrame : IDataHandler → Nat → Except Error (Mat × IDataHandler)
  | .leaf b, nFrameIdx => .ok ((b.getGTFrame nFrameIdx).1, .leaf (b.getGTFrame nFrameIdx).2)
  | .group cs, nFrameIdx =>
    match (IDataHandler.group cs).getBatch nFrameIdx with
    | .error e => .error e
    | .ok (k, nLocalIdx) =>
      match getGTFrameAt cs k nLocalIdx with
      | .error e => .error e
      | .ok (oFrame, cs1) => .ok (oFrame, .group cs1)
/-- Dereferences the pointer to the child at position `k` of `getBatches()` and
calls its `getGTFrame`; the child is updated in place. -/
def getGTFrameAt : List IDataHandler → Nat → Nat → Except Error (Mat × List IDataHandler)
  | [], _, _ => .error .RangeError
  | c :: cs, 0, nFrameIdx =>
    match c.getGTFrame nFrameIdx with
    | .error e => .error e
    | .ok (oFrame, c1) => .ok (oFrame, c1 :: cs)
  | c :: cs, k + 1, nFrameIdx =>
    match getGTFrameAt cs k nFrameIdx with
    | .error e => .error e
    | .ok (oFrame, cs1) => .ok (oFrame, c :: cs1)
end

mutual
/-- The leaves below a handler, in child order (depth first, left to right). -/
def IDataHandler.leaves : IDataHandler → List WorkBatch
  | .leaf b => [b]
  | .group cs => leavesOf cs
/-- The leaves below a list of handlers, in order. -/
def leavesOf : List IDataHandler → List WorkBatch
  | [] => []
  | c :: cs => c.leaves ++ leavesOf cs
end

/-- Total packet count of a list of leaves. -/
def frameCountOf (bs : List WorkBatch) : Nat := (bs.map (fun b => b.m_nFrameCount)).sum

/-! ## Processed-packet counters -/

/-- Constructor `IDataCounter_<TNoGroup>()` (line 293) on a leaf: the counter
is zero and the promise is default-constructed. -/
def WorkBatch.initCounter (b : WorkBatch) : WorkBatch :=
  { b with m_nProcessedPackets := 0, m_nProcessedPacketsPromise := StdPromise.fresh }

/-- The method `processPacket` (line 295): `++m_nProcessedPackets`. -/
def WorkBatch.processPacket (b : WorkBatch) : WorkBatch :=
  { b with m_nProcessedPackets := b.m_nProcessedPackets + 1 }

/-- The method `setProcessedPacketsPromise` (line 296):
`m_nProcessedPacketsPromise.set_value(m_nProcessedPackets)`. When `set_value`
throws, the leaf is unchanged. -/
def WorkBatch.setProcessedPacketsPromise (b : WorkBatch) : Except Error Unit × WorkBatch :=
  match b.m_nProcessedPacketsPromise.set_value b.m_nProcessedPackets with
  | .error e => (.error e, b)
  | .ok p => (.ok (), { b with m_nProcessedPacketsPromise := p })

/-- Leaf `getProcessedPacketsCountPromise` (line 297):
`m_nProcessedPacketsPromise.get_future().get()`. `get_future` throws when the
future was already retrieved; `get` returns the stored value, and waits while
none is stored. -/
def WorkBatch.getProcessedPacketsCountPromise (b : WorkBatch) : Await Nat × WorkBatch :=
  match b.m_nProcessedPacketsPromise.get_future with
  | .error e => (.failed e, b)
  | .ok p =>
    match p.value with
    | some v => (.ready v, { b with m_nProcessedPacketsPromise := p })
    | none => (.blocked, { b with m_nProcessedPacketsPromise := p })

/-- Leaf `getProcessedPacketsCount` (line 298). -/
def WorkBatch.getProcessedPacketsCount (b : WorkBatch) : Nat := b.m_nProcessedPackets

mutual
/-- The method `getProcessedPacketsCount`: the counter of a leaf (line 298); on
a group (line 307) `accumulateMembers` over `getBatches()` of the count of each
child. -/
def IDataHandler.getProcessedPacketsCount : IDataHandler → Nat
  | .leaf b => b.getProcessedPacketsCount
  | .group cs => accumulateProcessedPacketsCount cs 0
/-- Modelled from the spec: `CxxUtils::accumulateMembers` (defined outside the
header) with the callback of line 307: starting from `tSum`, it adds the count
of each member in order. -/
def accumulateProcessedPacketsCount : List IDataHandler → Nat → Nat
  | [], tSum => tSum
  | p :: ps, tSum => accumulateProcessedPacketsCount ps (tSum + p.getProcessedPacketsCount)
end

mutual
/-- The method `getProcessedPacketsCountPromise`: the future of a leaf
(line 297); on a group (line 306) `accumulateMembers` over `getBatches()` of the
final count of each child. -/
def IDataHandler.getProcessedPacketsCountPromise : IDataHandler → Await Nat × IDataHandler
  | .leaf b => (b.getProcessedPacketsCountPromise.1, .leaf b.getProcessedPacketsCountPromise.2)
  | .group cs =>
    ((accumulateProcessedPacketsCountPromise cs 0).1,
      .group (accumulateProcessedPacketsCountPromise cs 0).2)
/-- Modelled from the spec: `CxxUtils::accumulateMembers` (defined outside the
header) with the callback of line 306: starting from `tSum`, it queries each
member in order and adds its final count; it stops at the first member that
waits or throws, leaving the later members untouched. -/
def accumulateProcessedPacketsCountPromise :
    List IDataHandler → Nat → Await Nat × List IDataHandler
  | [], tSum => (.ready tSum, [])
  | p :: ps, tSum =>
    match p.getProcessedPacketsCountPromise with
    | (.ready v, p') =>
      ((accumulateProcessedPacketsCountPromise ps (tSum + v)).1,
        p' :: (accumulateProcessedPacketsCountPromise ps (tSum + v)).2)
    | (.blocked, p') => (.blocked, p' :: ps)
    | (.failed e, p') => (.failed e, p' :: ps)
end

/-! ## Results -/

/-- The file system seen by `cv::imwrite` and `cv::imread`: the images written,
latest first, each under its path. -/
abbrev FileSystem := List (String × Mat)

/-- The text `snprintf(buffer, nBufferSize, "%06zu", nIdx)` leaves in the
buffer: the decimal digits of `nIdx`, left-padded with zeros to six
characters, cut to `nBufferSize - 1` characters. -/
def snprintf_06zu (nBufferSize nIdx : Nat) : String :=
  let digits := Nat.toDigits 10 nIdx
  String.mk ((List.replicate (6 - digits.length) '0' ++ digits).take (nBufferSize - 1))

/-- The path built by `readResult` and `writeResult` (lines 333-336, 349-352). -/
def WorkBatch.resultFilePath (b : WorkBatch) (nIdx : Nat) : String :=
  b.getResultsPath ++ b.getDatasetInfo.getResultsNamePrefix ++ snprintf_06zu 10 nIdx
    ++ b.getDatasetInfo.getResultsNameSuffix

/-- The method `writeResult` (lines 347-355): asserts a non-empty results name
suffix, then writes the image under the result path. -/
def WorkBatch.writeResult (b : WorkBatch) (fs : FileSystem) (oSegm : Mat) (nIdx : Nat) :
    Except Error FileSystem :=
  if b.getDatasetInfo.getResultsNameSuffix.isEmpty then .error .assertion
  else .ok ((b.resultFilePath nIdx, oSegm) :: fs)

/-- The hook `_pushResult` (line 358): empty in this header. -/
def WorkBatch._pushResult (b : WorkBatch) (_oSegm : Mat) (_nIdx : Nat) : WorkBatch := b

/-- Leaf `pushResult` (lines 340-345): `processPacket()`, then `_pushResult`,
then `writeResult` when the dataset saves results. The counter is incremented
before `writeResult` can throw. -/
def WorkBatch.pushResult (b : WorkBatch) (fs : FileSystem) (oSegm : Mat) (nIdx : Nat) :
    Except Error Unit × WorkBatch × FileSystem :=
  let b1 := (b.processPacket)._pushResult oSegm nIdx
  if b1.getDatasetInfo.isSavingResults then
    match b1.writeResult fs oSegm nIdx with
    | .error e => (.error e, b1, fs)
    | .ok fs1 => (.ok (), b1, fs1)
  else (.ok (), b1, fs)

/-- The leaf after a sequence of `pushResult` calls, each with its segmentation
and index; a call that throws still leaves its effects. -/
def WorkBatch.pushResults (b : WorkBatch) (fs : FileSystem) :
    List (Mat × Nat) → WorkBatch × FileSystem
  | [] => (b, fs)
  | (oSegm, nIdx) :: rest =>
    WorkBatch.pushResults (b.pushResult fs oSegm nIdx).2.1 (b.pushResult fs oSegm nIdx).2.2 rest

/-- The leaf after `n` calls of `processPacket`. -/
def WorkBatch.processPackets (b : WorkBatch) : Nat → WorkBatch
  | 0 => b
  | n + 1 => (WorkBatch.processPackets b n).processPacket

/-- The call `get()` on the future of a promise: it returns the stored value and
waits while none is stored. -/
def StdPromise.future_get (p : StdPromise) : Await Nat :=
  match p.value with
  | some v => .ready v
  | none => .blocked

/-- What a call of `getProcessedPacketsCountPromise` that is waiting in `get()`
(line 297) does in the state `b` of its leaf: it goes on waiting while no value
is stored, and returns the value once one is stored. -/
def WorkBatch.waitingAwaitResult (b : WorkBatch) : Await Nat :=
  b.m_nProcessedPacketsPromise.future_get

/-- The leaf once its future was retrieved, everything else unchanged. -/
def WorkBatch.markRetrieved (b : WorkBatch) : WorkBatch :=
  { b with m_nProcessedPacketsPromise := { b.m_nProcessedPacketsPromise with retrieved := true } }

/-- A leaf that has signalled completion and whose final count was not awaited
yet: its promise holds a value and its future was not retrieved. -/
def WorkBatch.completedNotAwaited (b : WorkBatch) : Prop :=
  b.m_nProcessedPacketsPromise.value.isSome = true ∧
    b.m_nProcessedPacketsPromise.retrieved = false

/-- Sum of the values stored in the promises of the leaves below a handler. -/
def IDataHandler.finalCount (t : IDataHandler) : Nat :=
  (t.leaves.map (fun b => b.m_nProcessedPacketsPromise.value.getD 0)).sum

/-- An example packet source: packet `i` of source `tag` carries `[tag, i]`. -/
def examplePacket (tag i : Nat) : Mat := { rows := 1, cols := 2, channels := 1, data := [tag, i] }

/-- An example dataset description that saves results as PNG files. -/
def exampleDataset : IDataset :=
  { getResultsNamePrefix := "bin", getResultsNameSuffix := ".png", isSavingResults := true,
    is4ByteAligned := false, getScaleFactor := 1 }

/-- An example leaf with `n` frames whose packets are tagged `tag`, freshly
constructed: no video is opened and the reader cursor is `size_t(-1)`. -/
def exampleBatch (tag n : Nat) : WorkBatch :=
  { getName := "seq", getPath := "data/seq", getResultsPath := "results/", isGrayscale := true,
    getDatasetInfo := exampleDataset, m_nFrameCount := n,
    m_vsInputFramePaths := [],
    m_voVideoReader := { isOpened := false, frames := [], pos := 0, seeks := [] },
    m_nNextExpectedVideoReaderFrameIdx := 2 ^ 64 - 1,
    m_oROI := Mat.empty, m_oOrigSize := { width := 0, height := 0 },
    m_oSize := { width := 0, height := 0 },
    m_oInputPrecacher := DataPrecacher.new (examplePacket tag),
    m_oGTPrecacher := DataPrecacher.new (examplePacket (tag + 100)),
    m_nProcessedPackets := 0, m_nProcessedPacketsPromise := StdPromise.fresh }

/-- The children of the example group: three leaves of 5, 3 and 7 packets. -/
def exampleChildren : List IDataHandler :=
  [.leaf (exampleBatch 1 5), .leaf (exampleBatch 2 3), .leaf (exampleBatch 3 7)]

/-- The children of a two-level example tree: the example group of 15 packets,
then a leaf of 2 packets. -/
def exampleTree : List IDataHandler :=
  [.group exampleChildren, .leaf (exampleBatch 4 2)]

/-- An example leaf that processed three packets and then signalled completion. -/
def exampleCompletedBatch : WorkBatch :=
  (((exampleBatch 1 5).processPackets 3).setProcessedPacketsPromise).2

/-- The example completed leaf after its final count was awaited once. -/
def exampleAwaitedBatch : WorkBatch :=
  (exampleCompletedBatch.getProcessedPacketsCountPromise).2

/-- An example group of one completed leaf, after its final count was awaited
once. -/
def exampleAwaitedGroup : IDataHandler :=
  ((IDataHandler.group [.leaf exampleCompletedBatch]).getProcessedPacketsCountPromise).2

/-- Packets that precede child `k` of a group: the sum of the packet counts of
the children at positions below `k`. -/
def packetsBefore (cs : List IDataHandler) (k : Nat) : Nat :=
  ((cs.map IDataHandler.getTotPackets).take k).sum

/-! ## Comparators and the handler queue -/

/-- Modelled from the spec: `PlatformUtils::compare_lowercase` (defined outside the
header), the case-insensitive name ordering: both strings are lower-cased
character by character and compared with the lexicographic less-than. -/
def compare_lowercase (i j : String) : Bool :=
  decide (i.toList.map Char.toLower < j.toList.map Char.toLower)

/-- The virtual getters of `IDataHandler` that the comparators call (lines 102
and 106). They are pure virtual in the header, so they are parameters here; the
expected load, a finite `double`, is the rational number it denotes. -/
structure IDataHandlerGetters where
  getName : IDataHandler → String
  getExpectedLoad : IDataHandler → ℚ

/-- The overload `compare(const std::shared_ptr<Tp>&, const std::shared_ptr<Tp>&)`
(line 126); a pointer stands for the handler it points to. -/
def IDataHandler.compare_shared_ptr (g : IDataHandlerGetters) (i j : IDataHandler) : Bool :=
  compare_lowercase (g.getName i) (g.getName j)

/-- The overload `compare(const IDataHandler*, const IDataHandler*)` (line 128). -/
def IDataHandler.compare_ptr (g : IDataHandlerGetters) (i j : IDataHandler) : Bool :=
  compare_lowercase (g.getName i) (g.getName j)

/-- The overload `compare(const IDataHandler&, const IDataHandler&)` (line 130). -/
def IDataHandler.compare (g : IDataHandlerGetters) (i j : IDataHandler) : Bool :=
  compare_lowercase (g.getName i) (g.getName j)

/-- The overload `compare_load` on `std::shared_ptr` (line 127). -/
def IDataHandler.compare_load_shared_ptr (g : IDataHandlerGetters) (i j : IDataHandler) : Bool :=
  decide (g.getExpectedLoad i < g.getExpectedLoad j)

/-- The overload `compare_load(const IDataHandler*, const IDataHandler*)`
(line 129). -/
def IDataHandler.compare_load_ptr (g : IDataHandlerGetters) (i j : IDataHandler) : Bool :=
  decide (g.getExpectedLoad i < g.getExpectedLoad j)

/-- The overload `compare_load(const IDataHandler&, const IDataHandler&)`
(line 131). -/
def IDataHandler.compare_load (g : IDataHandlerGetters) (i j : IDataHandler) : Bool :=
  decide (g.getExpectedLoad i < g.getExpectedLoad j)

/-- The type `IDataHandlerPtrQueue` (line 72): a `std::priority_queue` of handler
pointers over a vector `c`, ordered by the comparator `comp` given at
construction. -/
structure IDataHandlerPtrQueue where
  comp : IDataHandler → IDataHandler → Bool
  c : List IDataHandler

/-- An empty queue built with a comparator. -/
def IDataHandlerPtrQueue.new (comp : IDataHandler → IDataHandler → Bool) :
    IDataHandlerPtrQueue := { comp := comp, c := [] }

/-- The call `push`: the queue holds one more element. -/
def IDataHandlerPtrQueue.push (q : IDataHandlerPtrQueue) (p : IDataHandler) :
    IDataHandlerPtrQueue := { q with c := q.c ++ [p] }

/-- The call `top` of `std::priority_queue`: an element that the comparator
orders below no other element of the queue; here the one kept by a scan that
replaces the candidate whenever the comparator orders it below the next
element. -/
def IDataHandlerPtrQueue.top (q : IDataHandlerPtrQueue) : Option IDataHandler :=
  match q.c with
  | [] => none
  | p :: ps => some (ps.foldl (fun oBest oNext => if q.comp oBest oNext then oNext else oBest) p)

/-- The queue built with a comparator from a list of handlers, pushed in order. -/
def IDataHandlerPtrQueue.ofList (comp : IDataHandler → IDataHandler → Bool)
    (ps : List IDataHandler) : IDataHandlerPtrQueue :=
  ps.foldl IDataHandlerPtrQueue.push (IDataHandlerPtrQueue.new comp)

/-- An example leaf named `sName`. -/
def exampleNamed (sName : String) : IDataHandler :=
  .leaf { exampleBatch 1 5 with getName := sName }

/-- Example getters: the name of a leaf is its `getName`, a group is named
`group`; the load of a handler is its packet count. -/
def exampleGetters : IDataHandlerGetters :=
  { getName := fun t => match t with
      | .leaf b => b.getName
      | .group _ => "group"
    getExpectedLoad := fun t => (t.getTotPackets : ℚ) }

/-! ## OpenCV and platform calls -/

/-- The size `cv::Mat::size()`. -/
def Mat.size (m : Mat) : Size := { width := m.cols, height := m.rows }

/-- The predicate `cv::Mat::empty()`: the matrix has no element. -/
def Mat.isEmpty (m : Mat) : Bool := m.rows * m.cols == 0

/-- The calls into OpenCV and `PlatformUtils` whose results the header does not
determine: the reader that `cv::VideoCapture::open` leaves for a path, the files
`PlatformUtils::GetFilesFromDir` lists, the target size of a resize by a scale
factor, and what the image conversions do to the pixel data. Their effect on
size and channel count is fixed by the functions below. -/
structure Externals where
  videoOpen : String → VideoCapture
  getFilesFromDir : String → List String
  scaledSize : Size → ℚ → Size
  grayData : Mat → List Nat
  bgraData : Mat → List Nat
  resizeData : Mat → Size → List Nat
  imreadData : Bool → Mat → List Nat

/-- The call `cv::cvtColor(m, m, cv::COLOR_BGR2GRAY)`: one channel. -/
def cvtColor_BGR2GRAY (ext : Externals) (m : Mat) : Mat :=
  { m with channels := 1, data := ext.grayData m }

/-- The call `cv::cvtColor(m, m, cv::COLOR_BGR2BGRA)`: four channels. -/
def cvtColor_BGR2BGRA (ext : Externals) (m : Mat) : Mat :=
  { m with channels := 4, data := ext.bgraData m }

/-- The call `cv::resize(m, m, oSize, 0, 0, cv::INTER_NEAREST)`: the given size,
the channels of the input. -/
def resize (ext : Externals) (m : Mat) (oSize : Size) : Mat :=
  { rows := oSize.height, cols := oSize.width, channels := m.channels,
    data := ext.resizeData m oSize }

/-- The call `cv::imread(sPath, flag)` with `bGrayscale` for `IMREAD_GRAYSCALE`
and otherwise `IMREAD_COLOR`: the latest image written under the path, decoded
to one or three channels; an empty matrix when there is no such file. -/
def imread (ext : Externals) (fs : FileSystem) (sPath : String) (bGrayscale : Bool) : Mat :=
  match fs.lookup sPath with
  | none => Mat.empty
  | some m => { m with channels := if bGrayscale then 1 else 3, data := ext.imreadData bGrayscale m }

/-- The call `set(cv::CAP_PROP_POS_FRAMES, n)`: a seek to frame `n`. -/
def VideoCapture.set_POS_FRAMES (v : VideoCapture) (n : Nat) : VideoCapture :=
  { v with pos := n, seeks := v.seeks ++ [n] }

/-- The call `reader >> oFrame`: the frame at the position (an empty matrix past
the last frame); the position advances by one. -/
def VideoCapture.read (v : VideoCapture) : Mat × VideoCapture :=
  (v.frames.getD v.pos Mat.empty, { v with pos := v.pos + 1 })

/-- The call `get(cv::CAP_PROP_FRAME_COUNT)`. -/
def VideoCapture.get_FRAME_COUNT (v : VideoCapture) : Nat := v.frames.length

/-! ## The video segmentation producer -/

/-- The method `parseDataset` (lines 222-248). The video is opened from the path;
when that fails the frames are the files of the directory, the first of which
gives the size; otherwise the first frame of the video gives the size and the
reader is put back at frame 0. It throws when no first image could be read and
asserts a positive frame count at the end. -/
def WorkBatch.parseDataset (ext : Externals) (fs : FileSystem) (b : WorkBatch) :
    Except Error Unit × WorkBatch :=
  let oReader := ext.videoOpen b.getPath
  let r : Mat × WorkBatch :=
    if !oReader.isOpened then
      match ext.getFilesFromDir b.getPath with
      | [] => (Mat.empty, { b with m_voVideoReader := oReader, m_vsInputFramePaths := [] })
      | sFirst :: vsRest =>
        (imread ext fs sFirst false,
          { b with
            m_voVideoReader := oReader
            m_vsInputFramePaths := sFirst :: vsRest
            m_nFrameCount := (sFirst :: vsRest).length })
    else
      ((oReader.set_POS_FRAMES 0).read.1,
        { b with
          m_voVideoReader := ((oReader.set_POS_FRAMES 0).read.2).set_POS_FRAMES 0
          m_nFrameCount := (((oReader.set_POS_FRAMES 0).read.2).set_POS_FRAMES 0).get_FRAME_COUNT })
  if r.1.isEmpty then (.error .runtime_error, r.2)
  else
    let dScale := b.getDatasetInfo.getScaleFactor
    let oScaledSize := if dScale ≠ 1 then ext.scaledSize r.1.size dScale else r.1.size
    let b2 : WorkBatch := { r.2 with
      m_oOrigSize := r.1.size
      m_oROI := { rows := oScaledSize.height, cols := oScaledSize.width, channels := 1,
                  data := List.replicate (oScaledSize.height * oScaledSize.width) 255 }
      m_oSize := oScaledSize
      m_nNextExpectedVideoReaderFrameIdx := 0 }
    if b2.m_nFrameCount > 0 then (.ok (), b2) else (.error .assertion, b2)

/-- Number of halvings that bring `n` below `2^53`, the width of the mantissa of
a `double` (with `fuel` an upper bound on that number). -/
def halvingsBelow53 : Nat → Nat → Nat
  | 0, _ => 0
  | fuel + 1, n => if n < 2 ^ 53 then 0 else halvingsBelow53 fuel (n / 2) + 1

/-- The value of `(double)n` for a `size_t` `n`: `n` itself below `2^53`, and
otherwise `n` rounded to the nearest multiple of `2^e` that fits 53 bits, ties
to the even mantissa. -/
def size_t_to_double (n : Nat) : Nat :=
  let e := halvingsBelow53 64 n
  let q := n / 2 ^ e
  let r := n % 2 ^ e
  if e = 0 then n
  else if 2 * r < 2 ^ e then q * 2 ^ e
  else if 2 * r > 2 ^ e then (q + 1) * 2 ^ e
  else if q % 2 = 0 then q * 2 ^ e
  else (q + 1) * 2 ^ e

/-- The method `_getInputPacket_impl` (lines 252-272). Without an opened video
the frame is read from its file (the empty path stands for an index past the
list of paths). With one, the reader is moved to `(double)nIdx`
only when the tracked cursor differs from `nIdx`, the cursor becomes `nIdx + 1`
(in `size_t` arithmetic), and the next frame is read (and made grayscale for a
grayscale leaf). The frame is then widened to four channels for a 4-byte
aligned dataset and resized to `m_oSize`. -/
def WorkBatch._getInputPacket_impl (ext : Externals) (fs : FileSystem) (b : WorkBatch)
    (nIdx : Nat) : Mat × WorkBatch :=
  let r : Mat × WorkBatch :=
    if !b.m_voVideoReader.isOpened then
      (imread ext fs (b.m_vsInputFramePaths.getD nIdx "") b.isGrayscale, b)
    else
      let b1 : WorkBatch :=
        if b.m_nNextExpectedVideoReaderFrameIdx ≠ nIdx then
          { b with
            m_voVideoReader := b.m_voVideoReader.set_POS_FRAMES (size_t_to_double nIdx)
            m_nNextExpectedVideoReaderFrameIdx := (nIdx + 1) % 2 ^ 64 }
        else
          { b with
            m_nNextExpectedVideoReaderFrameIdx :=
              (b.m_nNextExpectedVideoReaderFrameIdx + 1) % 2 ^ 64 }
      let oFrame := b1.m_voVideoReader.read.1
      (if b.isGrayscale && decide (oFrame.channels > 1) then cvtColor_BGR2GRAY ext oFrame
        else oFrame,
        { b1 with m_voVideoReader := b1.m_voVideoReader.read.2 })
  let oAligned :=
    if b.getDatasetInfo.is4ByteAligned && r.1.channels == 3 then cvtColor_BGR2BGRA ext r.1
    else r.1
  (if oAligned.size ≠ b.m_oSize then resize ext oAligned b.m_oSize else oAligned, r.2)

/-- The method `_getGTPacket_impl` (lines 274-276): a one-channel matrix of size
`m_oSize` filled with the out-of-scope value 85. -/
def WorkBatch._getGTPacket_impl (b : WorkBatch) (_nIdx : Nat) : Mat :=
  { rows := b.m_oSize.height, cols := b.m_oSize.width, channels := 1,
    data := List.replicate (b.m_oSize.height * b.m_oSize.width) 85 }

/-- The packets returned by a sequence of `_getInputPacket_impl` calls, in
order, and the leaf after them. -/
def WorkBatch.getInputPackets (ext : Externals) (fs : FileSystem) :
    WorkBatch → List Nat → List Mat × WorkBatch
  | b, [] => ([], b)
  | b, nIdx :: rest =>
    ((b._getInputPacket_impl ext fs nIdx).1
        :: (WorkBatch.getInputPackets ext fs (b._getInputPacket_impl ext fs nIdx).2 rest).1,
      (WorkBatch.getInputPackets ext fs (b._getInputPacket_impl ext fs nIdx).2 rest).2)

/-- The conversions `_getInputPacket_impl` applies to a frame: grayscale for a
grayscale leaf when the frame has several channels, four channels for a 4-byte
aligned dataset when it has three, and a resize to `m_oSize` when the size
differs. -/
def WorkBatch.convertFrame (ext : Externals) (b : WorkBatch) (oFrame : Mat) : Mat :=
  let oGray :=
    if b.isGrayscale && decide (oFrame.channels > 1) then cvtColor_BGR2GRAY ext oFrame
    else oFrame
  let oAligned :=
    if b.getDatasetInfo.is4ByteAligned && oGray.channels == 3 then cvtColor_BGR2BGRA ext oGray
    else oGray
  if oAligned.size ≠ b.m_oSize then resize ext oAligned b.m_oSize else oAligned

/-- The packet a leaf with an opened video delivers for frame `nIdx` of the
video: that frame (an empty matrix past the last frame), converted. -/
def WorkBatch.videoPacket (ext : Externals) (b : WorkBatch) (nIdx : Nat) : Mat :=
  b.convertFrame ext (b.m_voVideoReader.frames.getD nIdx Mat.empty)

/-- The leaf `c` reads the same source as the leaf `b`: same video frames or
frame files, same grayscale and dataset settings, same target size. -/
def WorkBatch.sameSource (b c : WorkBatch) : Prop :=
  c.isGrayscale = b.isGrayscale ∧ c.getDatasetInfo = b.getDatasetInfo ∧
  c.m_oSize = b.m_oSize ∧ c.m_nFrameCount = b.m_nFrameCount ∧
  c.m_voVideoReader.frames = b.m_voVideoReader.frames ∧
  c.m_voVideoReader.isOpened = b.m_voVideoReader.isOpened ∧
  c.m_vsInputFramePaths = b.m_vsInputFramePaths

/-! ## Precaching budget of a leaf -/

/-- The value of `cv::Size::area()`: `width * height` in 32-bit `int`
arithmetic (two-complement wrap on overflow). -/
def Size.area (s : Size) : Int :=
  ((s.width * s.height : Nat) + 2 ^ 31 : Int) % 2 ^ 32 - 2 ^ 31

/-- Conversion of an `int` to `size_t` (64 bits). -/
def toSizeT (i : Int) : Nat := (i % 2 ^ 64).toNat

/-- Bytes per pixel in the budget of line 215:
`isGrayscale()?1:getDatasetInfo().is4ByteAligned()?4:3`. -/
def WorkBatch.bytesPerPixel (b : WorkBatch) : Nat :=
  if b.isGrayscale then 1 else if b.getDatasetInfo.is4ByteAligned then 4 else 3

/-- The buffer size computed at line 215, in `size_t` arithmetic:
`m_oSize.area()*(m_nFrameCount+1)*(isGrayscale()?1:...)`. -/
def WorkBatch.precacheBufferSize (b : WorkBatch) : Nat :=
  ((toSizeT b.m_oSize.area * ((b.m_nFrameCount + 1) % 2 ^ 64)) % 2 ^ 64
    * b.bytesPerPixel) % 2 ^ 64

/-- Modelled from the spec: `IDataLoader_<TNoGroup>::startPrecaching` (only
declared in the header, line 178). It starts the input cache over all packets
of the leaf with the given byte budget, and the ground-truth cache as well when
`bPrecacheGT` is set. -/
def WorkBatch.IDataLoader_startPrecaching (b : WorkBatch) (bPrecacheGT : Bool)
    (nSuggestedBufferSize : Nat) : WorkBatch :=
  { b with
    m_oInputPrecacher :=
      (b.m_oInputPrecacher.startPrecaching b.m_nFrameCount nSuggestedBufferSize).2
    m_oGTPrecacher :=
      if bPrecacheGT then
        (b.m_oGTPrecacher.startPrecaching b.m_nFrameCount nSuggestedBufferSize).2
      else b.m_oGTPrecacher }

/-- The method `startPrecaching` of the video segmentation leaf (lines 214-216):
the second argument is unused and the budget of line 215 is passed on. -/
def WorkBatch.startPrecaching (b : WorkBatch) (bUsingGT : Bool) (_nUnused : Nat) : WorkBatch :=
  b.IDataLoader_startPrecaching bUsingGT b.precacheBufferSize

/-! ## Result files -/

/-- The path built by `readResult` (lines 333-336). -/
def WorkBatch.readResultFilePath (b : WorkBatch) (nIdx : Nat) : String :=
  b.getResultsPath ++ b.getDatasetInfo.getResultsNamePrefix ++ snprintf_06zu 10 nIdx
    ++ b.getDatasetInfo.getResultsNameSuffix

/-- The method `readResult` (lines 331-338): asserts a non-empty results name
suffix, then reads the image under the result path, as grayscale for a
grayscale leaf and as colour otherwise. -/
def WorkBatch.readResult (ext : Externals) (b : WorkBatch) (fs : FileSystem) (nIdx : Nat) :
    Except Error Mat :=
  if b.getDatasetInfo.getResultsNameSuffix.isEmpty then .error .assertion
  else .ok (imread ext fs (b.readResultFilePath nIdx) b.isGrayscale)

/-- The decimal digits of `nIdx`, left-padded with zeros to six characters. -/
def zeroPadded6 (nIdx : Nat) : List Char :=
  List.replicate (6 - (Nat.toDigits 10 nIdx).length) '0' ++ Nat.toDigits 10 nIdx

/-- Value of a decimal digit character. -/
def digitValue (c : Char) : Nat := c.toNat - '0'.toNat

/-- Value of a string of decimal digits. -/
def decimalValue : List Char → Nat
  | [] => 0
  | c :: cs => digitValue c * 10 ^ cs.length + decimalValue cs

/-- Example externals: no video can be opened, no file is listed, and the
conversions keep the pixel data. -/
def exampleExternals : Externals :=
  { videoOpen := fun _ => { isOpened := false, frames := [], pos := 0, seeks := [] }
    getFilesFromDir := fun _ => []
    scaledSize := fun s _ => s
    grayData := fun m => m.data
    bgraData := fun m => m.data
    resizeData := fun m _ => m.data
    imreadData := fun _ m => m.data }

/-- Example externals under which every path opens a video of three colour
frames of 2 by 2 pixels. -/
def exampleVideoExternals : Externals :=
  { exampleExternals with
    videoOpen := fun _ =>
      { isOpened := true
        frames := [{ rows := 2, cols := 2, channels := 3, data := [0] },
                   { rows := 2, cols := 2, channels := 3, data := [1] },
                   { rows := 2, cols := 2, channels := 3, data := [2] }]
        pos := 7, seeks := [] } }

/-- An example leaf after `parseDataset` opened the example video. -/
def exampleVideoBatch : WorkBatch :=
  ((exampleBatch 1 0).parseDataset exampleVideoExternals []).2

/-! ## Index routing: `getBatch` -/

theorem getTotPacketsOf_eq_sum (cs : List IDataHandler) :
    getTotPacketsOf cs = (cs.map IDataHandler.getTotPackets).sum := by
  induction cs with
  | nil => simp [getTotPacketsOf]
  | cons c cs ih => simp [getTotPacketsOf, ih]

theorem group_getTotPackets (cs : List IDataHandler) :
    (IDataHandler.group cs).getTotPackets = (cs.map IDataHandler.getTotPackets).sum := by
  rw [IDataHandler.getTotPackets, getTotPacketsOf_eq_sum]

theorem packetsBefore_zero (cs : List IDataHandler) : packetsBefore cs 0 = 0 := by
  simp [packetsBefore]

theorem packetsBefore_cons_succ (c : IDataHandler) (cs : List IDataHandler) (k : Nat) :
    packetsBefore (c :: cs) (k + 1) = c.getTotPackets + packetsBefore cs k := by
  simp [packetsBefore]

theorem packetsBefore_le_succ (cs : List IDataHandler) (k : Nat) :
    packetsBefore cs k ≤ packetsBefore cs (k + 1) := by
  induction cs generalizing k with
  | nil => simp [packetsBefore]
  | cons c cs ih =>
    cases k with
    | zero => simp [packetsBefore]
    | succ k =>
      rw [packetsBefore_cons_succ, packetsBefore_cons_succ]
      exact Nat.add_le_add_left (ih k) _

theorem packetsBefore_mono (cs : List IDataHandler) {j k : Nat} (h : j ≤ k) :
    packetsBefore cs j ≤ packetsBefore cs k := by
  induction h with
  | refl => exact Nat.le_refl _
  | step _ ih => exact Nat.le_trans ih (packetsBefore_le_succ cs _)

/-- The walk finds the child whose range holds the index, provided the index is
below the total of the children walked. -/
theorem getBatchWalk_some (cs : List IDataHandler) (k nPacketIdx : Nat)
    (h : nPacketIdx < (cs.map IDataHandler.getTotPackets).sum) :
    ∃ j c, cs[j]? = some c ∧
      getBatchWalk cs k nPacketIdx = some (k + j, nPacketIdx - packetsBefore cs j) ∧
      packetsBefore cs j ≤ nPacketIdx ∧ nPacketIdx < packetsBefore cs (j + 1) ∧
      nPacketIdx - packetsBefore cs j < c.getTotPackets := by
  induction cs generalizing k nPacketIdx with
  | nil => simp at h
  | cons c cs ih =>
    by_cases hc : nPacketIdx ≥ c.getTotPackets
    · have hrest : nPacketIdx - c.getTotPackets < (cs.map IDataHandler.getTotPackets).sum := by
        simp only [List.map_cons, List.sum_cons] at h
        omega
      obtain ⟨j, d, hd, hw, hlo, hhi, hloc⟩ := ih (k + 1) (nPacketIdx - c.getTotPackets) hrest
      refine ⟨j + 1, d, by simpa using hd, ?_, ?_, ?_, ?_⟩
      · rw [getBatchWalk, if_pos hc, hw, packetsBefore_cons_succ]
        congr 2
        · omega
        · omega
      · rw [packetsBefore_cons_succ]; omega
      · rw [packetsBefore_cons_succ]; omega
      · rw [packetsBefore_cons_succ]
        have : nPacketIdx - (c.getTotPackets + packetsBefore cs j)
            = nPacketIdx - c.getTotPackets - packetsBefore cs j := by omega
        rw [this]; exact hloc
    · refine ⟨0, c, by simp, ?_, ?_, ?_, ?_⟩
      · rw [getBatchWalk, if_neg hc, packetsBefore_zero]; rfl
      · rw [packetsBefore_zero]; exact Nat.zero_le _
      · rw [packetsBefore_cons_succ, packetsBefore_zero]; omega
      · rw [packetsBefore_zero]; omega

/-- On a group, an index below the sum of the packet counts of the children is
routed to the unique child whose range holds it. -/
theorem getBatch_ok_of_lt (cs : List IDataHandler) (nPacketIdx : Nat)
    (h : nPacketIdx < (cs.map IDataHandler.getTotPackets).sum) :
    ∃ k c, cs[k]? = some c ∧
      (IDataHandler.group cs).getBatch nPacketIdx
        = .ok (k, nPacketIdx - packetsBefore cs k) ∧
      packetsBefore cs k ≤ nPacketIdx ∧ nPacketIdx < packetsBefore cs (k + 1) ∧
      nPacketIdx - packetsBefore cs k < c.getTotPackets ∧
      ∀ j, packetsBefore cs j ≤ nPacketIdx → nPacketIdx < packetsBefore cs (j + 1) → j = k := by
  obtain ⟨k, c, hc, hw, hlo, hhi, hloc⟩ := getBatchWalk_some cs 0 nPacketIdx h
  refine ⟨k, c, hc, ?_, hlo, hhi, hloc, ?_⟩
  · have hlt : ¬ nPacketIdx ≥ (IDataHandler.group cs).getTotPackets := by
      rw [group_getTotPackets]; omega
    rw [IDataHandler.getBatch, if_neg hlt, hw, Nat.zero_add]
  · intro j hjlo hjhi
    rcases Nat.lt_trichotomy j k with hlt | heq | hgt
    · have := packetsBefore_mono cs (show j + 1 ≤ k from hlt)
      omega
    · exact heq
    · have := packetsBefore_mono cs (show k + 1 ≤ j from hgt)
      omega

/-- C1: for a group whose children have packet counts `c_0 .. c_(n-1)` and an index
below their sum, `getBatch` returns the child at the unique position `k` with
`c_0 + .. + c_(k-1) ≤ nPacketIdx < c_0 + .. + c_k`, and readjusts the index to
`nPacketIdx - (c_0 + .. + c_(k-1))`, which is below `c_k`. -/
theorem getBatch_selects_child (cs : List IDataHandler) (nPacketIdx : Nat)
    (h : nPacketIdx < (cs.map IDataHandler.getTotPackets).sum) :
    ∃ k c, cs[k]? = some c ∧
      (IDataHandler.group cs).getBatch nPacketIdx
        = .ok (k, nPacketIdx - packetsBefore cs k) ∧
      packetsBefore cs k ≤ nPacketIdx ∧ nPacketIdx < packetsBefore cs (k + 1) ∧
      nPacketIdx - packetsBefore cs k < c.getTotPackets ∧
      ∀ j, packetsBefore cs j ≤ nPacketIdx → nPacketIdx < packetsBefore cs (j + 1) → j = k :=
  getBatch_ok_of_lt cs nPacketIdx h

/-- Witness for C1 on the children of 5, 3 and 7 packets: index 6 is routed to
the second child with local index 1. -/
theorem getBatch_selects_child_witness :
    (6 < (exampleChildren.map IDataHandler.getTotPackets).sum) ∧
    ∃ k c, exampleChildren[k]? = some c ∧
      (IDataHandler.group exampleChildren).getBatch 6
        = .ok (k, 6 - packetsBefore exampleChildren k) ∧
      packetsBefore exampleChildren k ≤ 6 ∧ 6 < packetsBefore exampleChildren (k + 1) ∧
      6 - packetsBefore exampleChildren k < c.getTotPackets ∧
      ∀ j, packetsBefore exampleChildren j ≤ 6 → 6 < packetsBefore exampleChildren (j + 1) →
        j = k :=
  ⟨by decide, getBatch_selects_child exampleChildren 6 (by decide)⟩

/-- C2: `getBatch` on a group fails exactly when the index is at or beyond the
packet count of the group, on a leaf it always fails, every failure is a
`RangeError`, and a returned child always comes with an index inside its own
range (so no index is clamped); index 15 fails on the children of 5, 3 and 7
packets. -/
theorem getBatch_fails_iff_out_of_range :
    (∀ (cs : List IDataHandler) (nPacketIdx : Nat),
        (IDataHandler.group cs).getBatch nPacketIdx = .error .RangeError ↔
        (IDataHandler.group cs).getTotPackets ≤ nPacketIdx) ∧
    (∀ (b : WorkBatch) (nPacketIdx : Nat),
        (IDataHandler.leaf b).getBatch nPacketIdx = .error .RangeError) ∧
    (∀ (t : IDataHandler) (nPacketIdx : Nat) (e : Error),
        t.getBatch nPacketIdx = .error e → e = .RangeError) ∧
    (∀ (t : IDataHandler) (nPacketIdx k nLocalIdx : Nat),
        t.getBatch nPacketIdx = .ok (k, nLocalIdx) →
        nPacketIdx < t.getTotPackets ∧
        ∃ cs c, t = .group cs ∧ cs[k]? = some c ∧ nLocalIdx < c.getTotPackets ∧
          nLocalIdx = nPacketIdx - packetsBefore cs k) ∧
    (IDataHandler.group exampleChildren).getBatch 15 = .error .RangeError := by
  refine ⟨?_, ?_, ?_, ?_, rfl⟩
  · intro cs nPacketIdx
    constructor
    · intro herr
      by_contra hlt
      have hlt2 : nPacketIdx < (cs.map IDataHandler.getTotPackets).sum := by
        rw [group_getTotPackets] at hlt; omega
      obtain ⟨k, c, -, hok, -⟩ := getBatch_ok_of_lt cs nPacketIdx hlt2
      rw [hok] at herr
      cases herr
    · intro hge
      rw [IDataHandler.getBatch, if_pos hge]
  · intro b nPacketIdx
    rfl
  · intro t nPacketIdx e herr
    cases t with
    | leaf b => simp [IDataHandler.getBatch] at herr; exact herr.symm
    | group cs =>
      rw [IDataHandler.getBatch] at herr
      split at herr
      · cases herr; rfl
      · split at herr
        · cases herr
        · cases herr; rfl
  · intro t nPacketIdx k nLocalIdx hok
    cases t with
    | leaf b => simp [IDataHandler.getBatch] at hok
    | group cs =>
      by_cases hge : (IDataHandler.group cs).getTotPackets ≤ nPacketIdx
      · rw [IDataHandler.getBatch, if_pos hge] at hok
        cases hok
      · have hlt2 : nPacketIdx < (cs.map IDataHandler.getTotPackets).sum := by
          rw [group_getTotPackets] at hge; omega
        obtain ⟨k1, c, hc, hok1, -, -, hloc, -⟩ := getBatch_ok_of_lt cs nPacketIdx hlt2
        rw [hok1] at hok
        injection hok with hpair
        injection hpair with hk hl
        subst hk
        subst hl
        exact ⟨by omega, cs, c, rfl, hc, hloc, rfl⟩

/-! ## Frame routing through groups -/

theorem frameCountOf_append (xs ys : List WorkBatch) :
    frameCountOf (xs ++ ys) = frameCountOf xs + frameCountOf ys := by
  simp [frameCountOf]

/-- The packet count of a handler is the total frame count of its leaves. -/
theorem getTotPackets_eq_leaves (t : IDataHandler) :
    t.getTotPackets = frameCountOf t.leaves := by
  refine @IDataHandler.rec
    (fun t => t.getTotPackets = frameCountOf t.leaves)
    (fun cs => getTotPacketsOf cs = frameCountOf (leavesOf cs))
    ?_ ?_ ?_ ?_ t
  · intro b
    simp [IDataHandler.getTotPackets, IDataHandler.leaves, frameCountOf]
  · intro cs ih
    rw [IDataHandler.getTotPackets, IDataHandler.leaves, ih]
  · simp [getTotPacketsOf, leavesOf, frameCountOf]
  · intro c cs ihc ihcs
    rw [getTotPacketsOf, leavesOf, frameCountOf_append, ihc, ihcs]

/-- Routing invariant of `getInputFrame` and `getGTFrame`, on a handler and on
the children of a group: the call lands on one leaf, with the index reduced by
the packet counts of the leaves before it, and only that leaf is updated. -/
theorem getFrame_routes_aux (t : IDataHandler) :
    ∀ j, j < t.getTotPackets →
      ∃ pre b post loc, t.leaves = pre ++ b :: post ∧ loc + frameCountOf pre = j ∧
        loc < b.m_nFrameCount ∧
        (∃ t1, t.getInputFrame j = .ok ((b.getInputFrame loc).1, t1) ∧
          t1.leaves = pre ++ (b.getInputFrame loc).2 :: post) ∧
        (∃ t2, t.getGTFrame j = .ok ((b.getGTFrame loc).1, t2) ∧
          t2.leaves = pre ++ (b.getGTFrame loc).2 :: post) := by
  refine @IDataHandler.rec
    (fun t => ∀ j, j < t.getTotPackets →
      ∃ pre b post loc, t.leaves = pre ++ b :: post ∧ loc + frameCountOf pre = j ∧
        loc < b.m_nFrameCount ∧
        (∃ t1, t.getInputFrame j = .ok ((b.getInputFrame loc).1, t1) ∧
          t1.leaves = pre ++ (b.getInputFrame loc).2 :: post) ∧
        (∃ t2, t.getGTFrame j = .ok ((b.getGTFrame loc).1, t2) ∧
          t2.leaves = pre ++ (b.getGTFrame loc).2 :: post))
    (fun cs => ∀ k c j, cs[k]? = some c → j < c.getTotPackets →
      ∃ pre b post loc, leavesOf cs = pre ++ b :: post ∧
        loc + frameCountOf pre = j + packetsBefore cs k ∧
        loc < b.m_nFrameCount ∧
        (∃ cs1, getInputFrameAt cs k j = .ok ((b.getInputFrame loc).1, cs1) ∧
          leavesOf cs1 = pre ++ (b.getInputFrame loc).2 :: post) ∧
        (∃ cs2, getGTFrameAt cs k j = .ok ((b.getGTFrame loc).1, cs2) ∧
          leavesOf cs2 = pre ++ (b.getGTFrame loc).2 :: post))
    ?_ ?_ ?_ ?_ t
  · intro b j hj
    refine ⟨[], b, [], j, ?_, ?_, ?_, ⟨.leaf (b.getInputFrame j).2, ?_, ?_⟩,
      ⟨.leaf (b.getGTFrame j).2, ?_, ?_⟩⟩
    · simp [IDataHandler.leaves]
    · simp [frameCountOf]
    · simpa [IDataHandler.getTotPackets] using hj
    · rw [IDataHandler.getInputFrame]
    · simp [IDataHandler.leaves]
    · rw [IDataHandler.getGTFrame]
    · simp [IDataHandler.leaves]
  · intro cs ih j hj
    have hj2 : j < (cs.map IDataHandler.getTotPackets).sum := by
      rw [group_getTotPackets] at hj; exact hj
    obtain ⟨k, c, hc, hok, hlo, -, hloc, -⟩ := getBatch_ok_of_lt cs j hj2
    obtain ⟨pre, b, post, loc, hl, hsum, hlt, ⟨cs1, hat1, hl1⟩, ⟨cs2, hat2, hl2⟩⟩ :=
      ih k c (j - packetsBefore cs k) hc hloc
    refine ⟨pre, b, post, loc, ?_, ?_, hlt, ⟨.group cs1, ?_, ?_⟩, ⟨.group cs2, ?_, ?_⟩⟩
    · rw [IDataHandler.leaves]; exact hl
    · omega
    · rw [IDataHandler.getInputFrame, hok]
      simp only [hat1]
    · rw [IDataHandler.leaves]; exact hl1
    · rw [IDataHandler.getGTFrame, hok]
      simp only [hat2]
    · rw [IDataHandler.leaves]; exact hl2
  · intro k c j hc
    simp at hc
  · intro c cs ihc ihcs k d j hd hj
    cases k with
    | zero =>
      have hcd : c = d := by simpa using hd
      subst hcd
      obtain ⟨pre, b, post, loc, hl, hsum, hlt, ⟨t1, hget1, hl1⟩, ⟨t2, hget2, hl2⟩⟩ := ihc j hj
      refine ⟨pre, b, post ++ leavesOf cs, loc, ?_, ?_, hlt, ⟨t1 :: cs, ?_, ?_⟩,
        ⟨t2 :: cs, ?_, ?_⟩⟩
      · rw [leavesOf, hl]; simp
      · rw [packetsBefore_zero]; omega
      · rw [getInputFrameAt, hget1]
      · rw [leavesOf, hl1]; simp
      · rw [getGTFrameAt, hget2]
      · rw [leavesOf, hl2]; simp
    | succ k =>
      have hd2 : cs[k]? = some d := by simpa using hd
      obtain ⟨pre, b, post, loc, hl, hsum, hlt, ⟨cs1, hat1, hl1⟩, ⟨cs2, hat2, hl2⟩⟩ :=
        ihcs k d j hd2 hj
      refine ⟨c.leaves ++ pre, b, post, loc, ?_, ?_, hlt, ⟨c :: cs1, ?_, ?_⟩,
        ⟨c :: cs2, ?_, ?_⟩⟩
      · rw [leavesOf, hl]; simp
      · rw [packetsBefore_cons_succ, frameCountOf_append]
        have hcl := getTotPackets_eq_leaves c
        omega
      · rw [getInputFrameAt, hat1]
      · rw [leavesOf, hl1]; simp
      · rw [getGTFrameAt, hat2]
      · rw [leavesOf, hl2]; simp

/-- C3: on a group of any depth, for an index below its packet count,
`getInputFrame` and `getGTFrame` return what the routed leaf returns for the
index minus the packet counts of all the leaves before it in child order, and
only that leaf is updated. -/
theorem group_getFrame_routes_to_leaf (cs : List IDataHandler) (nFrameIdx : Nat)
    (h : nFrameIdx < (IDataHandler.group cs).getTotPackets) :
    ∃ pre b post, (IDataHandler.group cs).leaves = pre ++ b :: post ∧
      frameCountOf pre ≤ nFrameIdx ∧ nFrameIdx - frameCountOf pre < b.m_nFrameCount ∧
      (∃ t1, (IDataHandler.group cs).getInputFrame nFrameIdx
          = .ok ((b.getInputFrame (nFrameIdx - frameCountOf pre)).1, t1) ∧
        t1.leaves = pre ++ (b.getInputFrame (nFrameIdx - frameCountOf pre)).2 :: post) ∧
      (∃ t2, (IDataHandler.group cs).getGTFrame nFrameIdx
          = .ok ((b.getGTFrame (nFrameIdx - frameCountOf pre)).1, t2) ∧
        t2.leaves = pre ++ (b.getGTFrame (nFrameIdx - frameCountOf pre)).2 :: post) := by
  obtain ⟨pre, b, post, loc, hl, hsum, hlt, h1, h2⟩ :=
    getFrame_routes_aux (IDataHandler.group cs) nFrameIdx h
  have hloc : nFrameIdx - frameCountOf pre = loc := by omega
  refine ⟨pre, b, post, hl, by omega, by omega, ?_, ?_⟩
  · rw [hloc]; exact h1
  · rw [hloc]; exact h2

/-- Witness for C3 on a two-level tree: global index 14 lands on the third leaf
of the inner group with local index 6, not 14. -/
theorem group_getFrame_routes_to_leaf_witness :
    (14 < (IDataHandler.group exampleTree).getTotPackets) ∧
    (∃ pre b post, (IDataHandler.group exampleTree).leaves = pre ++ b :: post ∧
      frameCountOf pre ≤ 14 ∧ 14 - frameCountOf pre < b.m_nFrameCount ∧
      (∃ t1, (IDataHandler.group exampleTree).getInputFrame 14
          = .ok ((b.getInputFrame (14 - frameCountOf pre)).1, t1) ∧
        t1.leaves = pre ++ (b.getInputFrame (14 - frameCountOf pre)).2 :: post) ∧
      (∃ t2, (IDataHandler.group exampleTree).getGTFrame 14
          = .ok ((b.getGTFrame (14 - frameCountOf pre)).1, t2) ∧
        t2.leaves = pre ++ (b.getGTFrame (14 - frameCountOf pre)).2 :: post)) ∧
    ((IDataHandler.group exampleTree).getInputFrame 14).map Prod.fst
      = .ok (examplePacket 3 6) :=
  ⟨by decide, group_getFrame_routes_to_leaf exampleTree 14 (by decide), rfl⟩

/-! ## Processed-packet counters -/

theorem accumulateProcessedPacketsCount_eq (cs : List IDataHandler) (tSum : Nat) :
    accumulateProcessedPacketsCount cs tSum
      = tSum + (cs.map IDataHandler.getProcessedPacketsCount).sum := by
  induction cs generalizing tSum with
  | nil => simp [accumulateProcessedPacketsCount]
  | cons c cs ih =>
    rw [accumulateProcessedPacketsCount, ih]
    simp only [List.map_cons, List.sum_cons]
    omega

theorem getProcessedPacketsCount_eq_leaves (t : IDataHandler) :
    t.getProcessedPacketsCount = (t.leaves.map (fun b => b.m_nProcessedPackets)).sum := by
  refine @IDataHandler.rec
    (fun t => t.getProcessedPacketsCount = (t.leaves.map (fun b => b.m_nProcessedPackets)).sum)
    (fun cs => (cs.map IDataHandler.getProcessedPacketsCount).sum
      = ((leavesOf cs).map (fun b => b.m_nProcessedPackets)).sum)
    ?_ ?_ ?_ ?_ t
  · intro b
    simp [IDataHandler.getProcessedPacketsCount, WorkBatch.getProcessedPacketsCount,
      IDataHandler.leaves]
  · intro cs ih
    rw [IDataHandler.getProcessedPacketsCount, accumulateProcessedPacketsCount_eq,
      IDataHandler.leaves, ih, Nat.zero_add]
  · simp [leavesOf]
  · intro c cs ihc ihcs
    simp only [List.map_cons, List.sum_cons, leavesOf, List.map_append, List.sum_append]
    rw [ihc, ihcs]

/-- C4: the processed-packet count of a group is the sum of the counts of its
children, hence the sum of the counters of all leaves below it, and a group
without children reports 0. -/
theorem group_getProcessedPacketsCount_eq_sum :
    (∀ cs : List IDataHandler, (IDataHandler.group cs).getProcessedPacketsCount
        = (cs.map IDataHandler.getProcessedPacketsCount).sum) ∧
    (∀ cs : List IDataHandler, (IDataHandler.group cs).getProcessedPacketsCount
        = ((IDataHandler.group cs).leaves.map (fun b => b.m_nProcessedPackets)).sum) ∧
    (IDataHandler.group []).getProcessedPacketsCount = 0 := by
  refine ⟨?_, ?_, rfl⟩
  · intro cs
    rw [IDataHandler.getProcessedPacketsCount, accumulateProcessedPacketsCount_eq, Nat.zero_add]
  · intro cs
    exact getProcessedPacketsCount_eq_leaves (IDataHandler.group cs)

theorem processPackets_count (b : WorkBatch) (n : Nat) :
    (b.processPackets n).m_nProcessedPackets = b.m_nProcessedPackets + n := by
  induction n with
  | zero => rfl
  | succ n ih =>
    rw [WorkBatch.processPackets, WorkBatch.processPacket]
    simp only [ih]
    omega

theorem processPackets_promise (b : WorkBatch) (n : Nat) :
    (b.processPackets n).m_nProcessedPacketsPromise = b.m_nProcessedPacketsPromise := by
  induction n with
  | zero => rfl
  | succ n ih => rw [WorkBatch.processPackets, WorkBatch.processPacket]; exact ih

theorem pushResult_count (b : WorkBatch) (fs : FileSystem) (oSegm : Mat) (nIdx : Nat) :
    (b.pushResult fs oSegm nIdx).2.1.m_nProcessedPackets = b.m_nProcessedPackets + 1 := by
  unfold WorkBatch.pushResult
  simp only [WorkBatch._pushResult]
  split
  · split <;> rfl
  · rfl

theorem pushResults_count (b : WorkBatch) (fs : FileSystem) (calls : List (Mat × Nat)) :
    (b.pushResults fs calls).1.m_nProcessedPackets = b.m_nProcessedPackets + calls.length := by
  induction calls generalizing b fs with
  | nil => rfl
  | cons call rest ih =>
    obtain ⟨oSegm, nIdx⟩ := call
    rw [WorkBatch.pushResults, ih, pushResult_count, List.length_cons]
    omega

/-- C6: the counter of a leaf starts at 0, `processPacket` and every `pushResult`
call (saving results or not, and also when `writeResult` throws) raise
`getProcessedPacketsCount` by exactly one, so after `n` `pushResult` calls on a
new leaf the count is `n`, and the count never decreases. -/
theorem leaf_counter_counts_pushResult :
    (∀ b : WorkBatch, b.initCounter.getProcessedPacketsCount = 0) ∧
    (∀ b : WorkBatch, b.processPacket.getProcessedPacketsCount
        = b.getProcessedPacketsCount + 1) ∧
    (∀ (b : WorkBatch) (fs : FileSystem) (oSegm : Mat) (nIdx : Nat),
        (b.pushResult fs oSegm nIdx).2.1.getProcessedPacketsCount
          = b.getProcessedPacketsCount + 1) ∧
    (∀ (b : WorkBatch) (fs : FileSystem) (calls : List (Mat × Nat)),
        (b.initCounter.pushResults fs calls).1.getProcessedPacketsCount = calls.length) ∧
    (∀ (b : WorkBatch) (fs : FileSystem) (calls : List (Mat × Nat)),
        b.getProcessedPacketsCount ≤ (b.pushResults fs calls).1.getProcessedPacketsCount) := by
  refine ⟨fun _ => rfl, fun _ => rfl, ?_, ?_, ?_⟩
  · intro b fs oSegm nIdx
    exact pushResult_count b fs oSegm nIdx
  · intro b fs calls
    simp only [WorkBatch.getProcessedPacketsCount]
    rw [pushResults_count]
    simp [WorkBatch.initCounter]
  · intro b fs calls
    simp only [WorkBatch.getProcessedPacketsCount]
    rw [pushResults_count]
    omega

/-! ## Final counts: the promise of a leaf, and groups -/

theorem leaf_await_completed (b : WorkBatch) (h : b.completedNotAwaited) :
    b.getProcessedPacketsCountPromise
      = (.ready (b.m_nProcessedPacketsPromise.value.getD 0), b.markRetrieved) := by
  obtain ⟨hv, hr⟩ := h
  cases hval : b.m_nProcessedPacketsPromise.value with
  | none => rw [hval] at hv; cases hv
  | some v =>
    simp [WorkBatch.getProcessedPacketsCountPromise, StdPromise.get_future, hr, hval,
      WorkBatch.markRetrieved]

/-- First await on a handler whose leaves all signalled completion: the result
is the sum of the stored values and every leaf below has its future retrieved. -/
theorem await_completed_aux (t : IDataHandler) :
    (∀ b ∈ t.leaves, b.completedNotAwaited) →
      t.getProcessedPacketsCountPromise.1 = .ready t.finalCount ∧
      t.getProcessedPacketsCountPromise.2.leaves = t.leaves.map WorkBatch.markRetrieved := by
  refine @IDataHandler.rec
    (fun t => (∀ b ∈ t.leaves, b.completedNotAwaited) →
      t.getProcessedPacketsCountPromise.1 = .ready t.finalCount ∧
      t.getProcessedPacketsCountPromise.2.leaves = t.leaves.map WorkBatch.markRetrieved)
    (fun cs => (∀ b ∈ leavesOf cs, b.completedNotAwaited) → ∀ tSum,
      (accumulateProcessedPacketsCountPromise cs tSum).1
        = .ready (tSum + (cs.map IDataHandler.finalCount).sum) ∧
      leavesOf (accumulateProcessedPacketsCountPromise cs tSum).2
        = (leavesOf cs).map WorkBatch.markRetrieved ∧
      (cs.map IDataHandler.finalCount).sum
        = ((leavesOf cs).map (fun b => b.m_nProcessedPacketsPromise.value.getD 0)).sum)
    ?_ ?_ ?_ ?_ t
  · intro b hb
    have hb1 : b.completedNotAwaited := hb b (by simp [IDataHandler.leaves])
    rw [IDataHandler.getProcessedPacketsCountPromise, leaf_await_completed b hb1]
    simp [IDataHandler.finalCount, IDataHandler.leaves]
  · intro cs ih hcs
    have hcs1 : ∀ b ∈ leavesOf cs, b.completedNotAwaited := by
      intro b hb; exact hcs b (by rw [IDataHandler.leaves]; exact hb)
    obtain ⟨h1, h2, h3⟩ := ih hcs1 0
    rw [IDataHandler.getProcessedPacketsCountPromise]
    refine ⟨?_, ?_⟩
    · simp only [h1, Nat.zero_add, h3, IDataHandler.finalCount, IDataHandler.leaves]
    · simp only [IDataHandler.leaves, h2]
  · intro _ tSum
    simp [accumulateProcessedPacketsCountPromise, leavesOf]
  · intro c cs ihc ihcs hall tSum
    have hc : ∀ b ∈ c.leaves, b.completedNotAwaited := by
      intro b hb; exact hall b (by rw [leavesOf]; exact List.mem_append_left _ hb)
    have hcs : ∀ b ∈ leavesOf cs, b.completedNotAwaited := by
      intro b hb; exact hall b (by rw [leavesOf]; exact List.mem_append_right _ hb)
    obtain ⟨hc1, hc2⟩ := ihc hc
    obtain ⟨h1, h2, h3⟩ := ihcs hcs (tSum + c.finalCount)
    have hpair : c.getProcessedPacketsCountPromise
        = (.ready c.finalCount, c.getProcessedPacketsCountPromise.2) :=
      Prod.ext hc1 rfl
    have hacc : accumulateProcessedPacketsCountPromise (c :: cs) tSum
        = ((accumulateProcessedPacketsCountPromise cs (tSum + c.finalCount)).1,
            c.getProcessedPacketsCountPromise.2
              :: (accumulateProcessedPacketsCountPromise cs (tSum + c.finalCount)).2) := by
      rw [accumulateProcessedPacketsCountPromise]
      generalize c.getProcessedPacketsCountPromise = q at hpair
      rw [hpair]
    rw [hacc]
    refine ⟨?_, ?_, ?_⟩
    · simp only [h1, List.map_cons, List.sum_cons]
      congr 1
      omega
    · simp only [leavesOf, hc2, h2, List.map_append]
    · simp only [List.map_cons, List.sum_cons, leavesOf, List.map_append, List.sum_append, h3]
      rfl

theorem group_finalCount (cs : List IDataHandler) :
    (IDataHandler.group cs).finalCount = (cs.map IDataHandler.finalCount).sum := by
  simp only [IDataHandler.finalCount, IDataHandler.leaves]
  induction cs with
  | nil => simp [leavesOf]
  | cons c cs ih =>
    simp only [leavesOf, List.map_append, List.sum_append, List.map_cons, List.sum_cons, ih,
      IDataHandler.finalCount]

theorem leaves_subset_of_mem (cs : List IDataHandler) (c : IDataHandler) (hc : c ∈ cs) :
    ∀ b ∈ c.leaves, b ∈ leavesOf cs := by
  induction cs with
  | nil => cases hc
  | cons d ds ih =>
    intro b hb
    rw [leavesOf]
    rcases List.mem_cons.mp hc with rfl | hmem
    · exact List.mem_append_left _ hb
    · exact List.mem_append_right _ (ih hmem b hb)

/-- C5 (amended): on a group whose leaves have all signalled completion and have
not been awaited before, `getProcessedPacketsCountPromise` returns the sum of
the final values of its children, and the call retrieves the future of every
leaf below the group. -/
theorem group_final_count_first_await (cs : List IDataHandler)
    (h : ∀ b ∈ (IDataHandler.group cs).leaves, b.completedNotAwaited) :
    (∀ c ∈ cs, c.getProcessedPacketsCountPromise.1 = .ready c.finalCount) ∧
    (IDataHandler.group cs).getProcessedPacketsCountPromise.1
      = .ready ((cs.map IDataHandler.finalCount).sum) ∧
    (IDataHandler.group cs).getProcessedPacketsCountPromise.2.leaves
      = (IDataHandler.group cs).leaves.map WorkBatch.markRetrieved := by
  obtain ⟨h1, h2⟩ := await_completed_aux (IDataHandler.group cs) h
  refine ⟨?_, ?_, h2⟩
  · intro c hc
    refine (await_completed_aux c ?_).1
    intro b hb
    exact h b (by rw [IDataHandler.leaves]; exact leaves_subset_of_mem cs c hc b hb)
  · rw [h1, group_finalCount]

/-- Witness for C5 (amended): a group of two completed leaves, with final values
3 and 3, returns 6 on its first await. -/
theorem group_final_count_first_await_witness :
    (∀ b ∈ (IDataHandler.group
        [.leaf exampleCompletedBatch, .leaf exampleCompletedBatch]).leaves,
      b.completedNotAwaited) ∧
    ((∀ c ∈ [IDataHandler.leaf exampleCompletedBatch, .leaf exampleCompletedBatch],
        c.getProcessedPacketsCountPromise.1 = .ready c.finalCount) ∧
      (IDataHandler.group
          [.leaf exampleCompletedBatch, .leaf exampleCompletedBatch]).getProcessedPacketsCountPromise.1
        = .ready (([IDataHandler.leaf exampleCompletedBatch,
            .leaf exampleCompletedBatch].map IDataHandler.finalCount).sum) ∧
      (IDataHandler.group
          [.leaf exampleCompletedBatch,
            .leaf exampleCompletedBatch]).getProcessedPacketsCountPromise.2.leaves
        = (IDataHandler.group
            [.leaf exampleCompletedBatch, .leaf exampleCompletedBatch]).leaves.map
              WorkBatch.markRetrieved) ∧
    (IDataHandler.group
        [.leaf exampleCompletedBatch, .leaf exampleCompletedBatch]).getProcessedPacketsCountPromise.1
      = .ready 6 :=
  have hex : ∀ b ∈ (IDataHandler.group
      [.leaf exampleCompletedBatch, .leaf exampleCompletedBatch]).leaves,
      b.completedNotAwaited := by
    intro b hb
    simp only [IDataHandler.leaves, leavesOf, List.append_nil, List.cons_append,
      List.nil_append, List.mem_cons, List.mem_singleton, or_self, List.not_mem_nil,
      or_false] at hb
    subst hb
    exact ⟨rfl, rfl⟩
  ⟨hex, group_final_count_first_await _ hex, rfl⟩

/-- C5 counterexample: the leaf of `exampleAwaitedGroup` has signalled completion
with final value 3, the first await of the group returned 3, yet calling
`getProcessedPacketsCountPromise` on it throws `future_already_retrieved`
instead of returning 3. -/
theorem group_final_count_second_await_throws :
    (∀ b ∈ exampleAwaitedGroup.leaves, b.m_nProcessedPacketsPromise.value = some 3) ∧
    exampleAwaitedGroup.finalCount = 3 ∧
    (IDataHandler.group
      [.leaf exampleCompletedBatch]).getProcessedPacketsCountPromise.1 = .ready 3 ∧
    exampleAwaitedGroup.getProcessedPacketsCountPromise.1
      = .failed (.future_error .future_already_retrieved) ∧
    exampleAwaitedGroup.getProcessedPacketsCountPromise.1 ≠ .ready 3 := by
  refine ⟨?_, rfl, rfl, rfl, ?_⟩
  · intro b hb
    have hl : exampleAwaitedGroup.leaves = [exampleCompletedBatch.markRetrieved] := rfl
    rw [hl, List.mem_singleton] at hb
    subst hb
    rfl
  · intro hcontra
    have hf : exampleAwaitedGroup.getProcessedPacketsCountPromise.1
        = .failed (.future_error .future_already_retrieved) := rfl
    rw [hf] at hcontra
    cases hcontra

/-- C7 (amended): on a leaf whose final count has not been awaited before and
that has given no completion signal yet, the signal is accepted, and when
`processPacket` was called exactly `n` times by then
`getProcessedPacketsCountPromise` returns exactly `n`: both when it is called
after the signal (also if more packets are processed in between), and when it
was called before the signal, waited, and `k` more packets were processed
before the signal came. A second call on the same leaf throws
`future_already_retrieved`. -/
theorem leaf_first_await_returns_count_at_signal (b : WorkBatch) (k m : Nat)
    (hr : b.m_nProcessedPacketsPromise.retrieved = false)
    (hv : b.m_nProcessedPacketsPromise.value = none) :
    (b.setProcessedPacketsPromise).1 = .ok () ∧
    ((((b.setProcessedPacketsPromise).2.processPackets m).getProcessedPacketsCountPromise).1
      = .ready b.m_nProcessedPackets) ∧
    ((((b.setProcessedPacketsPromise).2.processPackets
        m).getProcessedPacketsCountPromise).2.getProcessedPacketsCountPromise).1
      = .failed (.future_error .future_already_retrieved) ∧
    (b.getProcessedPacketsCountPromise).1 = .blocked ∧
    ((((b.getProcessedPacketsCountPromise).2.processPackets k).setProcessedPacketsPromise).1
      = .ok ()) ∧
    ((((b.getProcessedPacketsCountPromise).2.processPackets
        k).setProcessedPacketsPromise).2.processPackets m).waitingAwaitResult
      = .ready (b.m_nProcessedPackets + k) := by
  have hset : b.setProcessedPacketsPromise
      = (.ok (), { b with
          m_nProcessedPacketsPromise :=
            { value := some b.m_nProcessedPackets, retrieved := false } }) := by
    cases hp : b.m_nProcessedPacketsPromise with
    | mk value retrieved =>
      rw [hp] at hr hv
      simp only at hr hv
      subst hr
      subst hv
      simp [WorkBatch.setProcessedPacketsPromise, hp, StdPromise.set_value]
  have hget : b.getProcessedPacketsCountPromise
      = (.blocked, { b with
          m_nProcessedPacketsPromise := { value := none, retrieved := true } }) := by
    cases hp : b.m_nProcessedPacketsPromise with
    | mk value retrieved =>
      rw [hp] at hr hv
      simp only at hr hv
      subst hr
      subst hv
      simp [WorkBatch.getProcessedPacketsCountPromise, hp, StdPromise.get_future]
  rw [hset, hget]
  refine ⟨rfl, ?_, ?_, rfl, ?_, ?_⟩
  · simp [WorkBatch.getProcessedPacketsCountPromise, processPackets_promise,
      StdPromise.get_future]
  · simp [WorkBatch.getProcessedPacketsCountPromise, processPackets_promise,
      StdPromise.get_future]
  · simp [WorkBatch.setProcessedPacketsPromise, processPackets_promise, StdPromise.set_value]
  · simp [WorkBatch.setProcessedPacketsPromise, processPackets_promise, StdPromise.set_value,
      WorkBatch.waitingAwaitResult, StdPromise.future_get, processPackets_count]

/-- Witness for C7 (amended): an example leaf that processed 3 packets, not
awaited and not signalled; awaited after the signal it returns 3, and awaited
before a signal that comes 4 packets later it returns 7. -/
theorem leaf_first_await_returns_count_at_signal_witness :
    (((exampleBatch 1 5).processPackets 3).m_nProcessedPacketsPromise.retrieved = false) ∧
    (((exampleBatch 1 5).processPackets 3).m_nProcessedPacketsPromise.value = none) ∧
    ((((exampleBatch 1 5).processPackets 3).setProcessedPacketsPromise).1 = .ok () ∧
      ((((((exampleBatch 1 5).processPackets 3).setProcessedPacketsPromise).2.processPackets
          2).getProcessedPacketsCountPromise).1
        = .ready ((exampleBatch 1 5).processPackets 3).m_nProcessedPackets) ∧
      ((((((exampleBatch 1 5).processPackets 3).setProcessedPacketsPromise).2.processPackets
          2).getProcessedPacketsCountPromise).2.getProcessedPacketsCountPromise).1
        = .failed (.future_error .future_already_retrieved) ∧
      (((exampleBatch 1 5).processPackets 3).getProcessedPacketsCountPromise).1 = .blocked ∧
      ((((((exampleBatch 1 5).processPackets 3).getProcessedPacketsCountPromise).2.processPackets
          4).setProcessedPacketsPromise).1 = .ok ()) ∧
      ((((((exampleBatch 1 5).processPackets 3).getProcessedPacketsCountPromise).2.processPackets
          4).setProcessedPacketsPromise).2.processPackets 2).waitingAwaitResult
        = .ready (((exampleBatch 1 5).processPackets 3).m_nProcessedPackets + 4)) ∧
    ((exampleBatch 1 5).processPackets 3).m_nProcessedPackets + 4 = 7 :=
  ⟨rfl, rfl,
    leaf_first_await_returns_count_at_signal ((exampleBatch 1 5).processPackets 3) 4 2 rfl rfl,
    rfl⟩

/-- C7 counterexample: the example leaf processed exactly 3 packets when it
signalled completion and its first await returned 3; called again on that leaf,
`getProcessedPacketsCountPromise` throws `future_already_retrieved` instead of
returning 3. -/
theorem leaf_final_count_second_await_throws :
    exampleCompletedBatch.m_nProcessedPackets = 3 ∧
    exampleCompletedBatch.m_nProcessedPacketsPromise.value = some 3 ∧
    (exampleCompletedBatch.getProcessedPacketsCountPromise).1 = .ready 3 ∧
    exampleAwaitedBatch.m_nProcessedPackets = 3 ∧
    exampleAwaitedBatch.m_nProcessedPacketsPromise.value = some 3 ∧
    (exampleAwaitedBatch.getProcessedPacketsCountPromise).1
      = .failed (.future_error .future_already_retrieved) ∧
    (exampleAwaitedBatch.getProcessedPacketsCountPromise).1 ≠ .ready 3 := by
  decide

/-- C8: once `setProcessedPacketsPromise` was accepted on a leaf, a second call on
that leaf (whatever was processed in between) throws
`promise_already_satisfied`, leaves the leaf unchanged, and the value fixed by
the first signal is still the stored final value. -/
theorem second_completion_signal_rejected (b : WorkBatch) (m : Nat)
    (h : (b.setProcessedPacketsPromise).1 = .ok ()) :
    ((b.setProcessedPacketsPromise).2.processPackets m).setProcessedPacketsPromise
      = (.error (.future_error .promise_already_satisfied),
          (b.setProcessedPacketsPromise).2.processPackets m) ∧
    (((b.setProcessedPacketsPromise).2.processPackets
        m).setProcessedPacketsPromise).2.m_nProcessedPacketsPromise.value
      = some b.m_nProcessedPackets := by
  have hv : b.m_nProcessedPacketsPromise.value = none := by
    cases hval : b.m_nProcessedPacketsPromise.value with
    | none => rfl
    | some v =>
      simp [WorkBatch.setProcessedPacketsPromise, StdPromise.set_value, hval] at h
  have hval2 : ((b.setProcessedPacketsPromise).2.processPackets
      m).m_nProcessedPacketsPromise.value = some b.m_nProcessedPackets := by
    rw [processPackets_promise]
    simp [WorkBatch.setProcessedPacketsPromise, StdPromise.set_value, hv]
  have hsecond : ((b.setProcessedPacketsPromise).2.processPackets m).setProcessedPacketsPromise
      = (.error (.future_error .promise_already_satisfied),
          (b.setProcessedPacketsPromise).2.processPackets m) := by
    generalize (b.setProcessedPacketsPromise).2.processPackets m = b2 at hval2
    simp [WorkBatch.setProcessedPacketsPromise, StdPromise.set_value, hval2]
  refine ⟨hsecond, ?_⟩
  rw [hsecond]
  exact hval2

/-- Witness for C8: an example leaf processes 3 packets and signals completion;
after 2 more packets a second signal is rejected and the final value stays 3. -/
theorem second_completion_signal_rejected_witness :
    ((((exampleBatch 1 5).processPackets 3).setProcessedPacketsPromise).1 = .ok ()) ∧
    ((((exampleBatch 1 5).processPackets 3).setProcessedPacketsPromise).2.processPackets
        2).setProcessedPacketsPromise
      = (.error (.future_error .promise_already_satisfied),
          (((exampleBatch 1 5).processPackets 3).setProcessedPacketsPromise).2.processPackets 2) ∧
    ((((((exampleBatch 1 5).processPackets 3).setProcessedPacketsPromise).2.processPackets
        2).setProcessedPacketsPromise).2.m_nProcessedPacketsPromise.value
      = some ((exampleBatch 1 5).processPackets 3).m_nProcessedPackets) :=
  ⟨rfl, second_completion_signal_rejected ((exampleBatch 1 5).processPackets 3) 2 rfl⟩

/-- C9 (amended): on a leaf that has given no completion signal, at any counter
value and so also before any processing began,
`getProcessedPacketsCountPromise` waits for the signal when the final count has
not been awaited before, and throws `future_already_retrieved` when it has. -/
theorem leaf_await_without_signal (b : WorkBatch)
    (hv : b.m_nProcessedPacketsPromise.value = none) :
    (b.m_nProcessedPacketsPromise.retrieved = false →
      (b.getProcessedPacketsCountPromise).1 = .blocked) ∧
    (b.m_nProcessedPacketsPromise.retrieved = true →
      (b.getProcessedPacketsCountPromise).1
        = .failed (.future_error .future_already_retrieved)) := by
  constructor
  · intro hr
    simp [WorkBatch.getProcessedPacketsCountPromise, StdPromise.get_future, hr, hv]
  · intro hr
    simp [WorkBatch.getProcessedPacketsCountPromise, StdPromise.get_future, hr]

/-- Witness for C9 (amended): a new example leaf, counter 0 and no signal: the
first await waits, and an await on the leaf left by that call throws. -/
theorem leaf_await_without_signal_witness :
    ((exampleBatch 2 4).m_nProcessedPacketsPromise.value = none) ∧
    (((exampleBatch 2 4).m_nProcessedPacketsPromise.retrieved = false →
        ((exampleBatch 2 4).getProcessedPacketsCountPromise).1 = .blocked) ∧
      ((exampleBatch 2 4).m_nProcessedPacketsPromise.retrieved = true →
        ((exampleBatch 2 4).getProcessedPacketsCountPromise).1
          = .failed (.future_error .future_already_retrieved))) ∧
    (exampleBatch 2 4).m_nProcessedPackets = 0 ∧
    ((exampleBatch 2 4).getProcessedPacketsCountPromise).1 = .blocked ∧
    (((exampleBatch 2 4).getProcessedPacketsCountPromise).2.getProcessedPacketsCountPromise).1
      = .failed (.future_error .future_already_retrieved) :=
  ⟨rfl, leaf_await_without_signal (exampleBatch 2 4) rfl, rfl, rfl, rfl⟩

/-- C9 counterexample: on a new leaf (counter 0, no completion signal) the call
`getProcessedPacketsCountPromise` waits; it reports no error. -/
theorem leaf_final_count_before_processing_blocks :
    (exampleBatch 1 5).getProcessedPacketsCount = 0 ∧
    (exampleBatch 1 5).m_nProcessedPacketsPromise = StdPromise.fresh ∧
    ((exampleBatch 1 5).getProcessedPacketsCountPromise).1 = .blocked ∧
    ∀ e, ((exampleBatch 1 5).getProcessedPacketsCountPromise).1 ≠ .failed e := by
  refine ⟨rfl, rfl, rfl, ?_⟩
  intro e hcontra
  have hb : ((exampleBatch 1 5).getProcessedPacketsCountPromise).1 = .blocked := rfl
  rw [hb] at hcontra
  cases hcontra

/-! ## DataPrecacher: every request returns the packet of the source -/

theorem compare_lowercase_iff (i j : String) :
    compare_lowercase i j = true
      ↔ i.toList.map Char.toLower < j.toList.map Char.toLower := by
  simp [compare_lowercase]

theorem toNat_ofNat_small (k : Nat) (hk : k < 55296) : (Char.ofNat k).toNat = k := by
  have hv : k.isValidChar := Or.inl hk
  unfold Char.ofNat
  rw [dif_pos hv]
  simp only [Char.ofNatAux, Char.toNat]
  show (UInt32.ofNat' k _).toNat = k
  simp [UInt32.ofNat', UInt32.toNat]

theorem toLower_toUpper (c : Char) : (c.toUpper).toLower = c.toLower := by
  unfold Char.toUpper Char.toLower
  simp only []
  by_cases h1 : c.toNat ≥ 97 ∧ c.toNat ≤ 122
  · have h2 : ¬ (c.toNat ≥ 65 ∧ c.toNat ≤ 90) := by omega
    have hv : (Char.ofNat (c.toNat - 32)).toNat = c.toNat - 32 :=
      toNat_ofNat_small _ (by omega)
    have h3 : c.toNat - 32 ≥ 65 ∧ c.toNat - 32 ≤ 90 := by omega
    simp only [h1, h2, and_self, if_true, if_false, hv, h3]
    have : c.toNat - 32 + 32 = c.toNat := by omega
    rw [this, Char.ofNat_toNat]
  · simp only [h1, if_false]

theorem toLower_toLower (c : Char) : (c.toLower).toLower = c.toLower := by
  unfold Char.toLower
  simp only []
  by_cases h1 : c.toNat ≥ 65 ∧ c.toNat ≤ 90
  · have hv : (Char.ofNat (c.toNat + 32)).toNat = c.toNat + 32 :=
      toNat_ofNat_small _ (by omega)
    have h3 : ¬ (c.toNat + 32 ≥ 65 ∧ c.toNat + 32 ≤ 90) := by omega
    simp only [h1, and_self, if_true, hv, h3, if_false]
  · simp only [h1, if_false]

theorem lower_of_upper (l : List Char) :
    (String.mk (l.map Char.toUpper)).toList.map Char.toLower = l.map Char.toLower := by
  simp [List.map_map, Function.comp_def, toLower_toUpper]

theorem lower_of_lower (l : List Char) :
    (String.mk (l.map Char.toLower)).toList.map Char.toLower = l.map Char.toLower := by
  simp [List.map_map, Function.comp_def, toLower_toLower]

/-- C11: `compare` is the lexicographic less-than of the two names after
lower-casing; replacing either name by one with the same lower-casing (a change
of letter case, such as the name in upper case or in lower case) never changes
the result; two names that differ only in case are ordered neither way; the
`shared_ptr`, raw pointer and reference overloads agree. The example orders
`apple` before `Zoo` and `Zoo` level with `zOO`. -/
theorem compare_is_case_insensitive (g : IDataHandlerGetters) (i j : IDataHandler) :
    (IDataHandler.compare g i j = true
      ↔ (g.getName i).toList.map Char.toLower < (g.getName j).toList.map Char.toLower) ∧
    (∀ i2 j2 : IDataHandler,
      (g.getName i2).toList.map Char.toLower = (g.getName i).toList.map Char.toLower →
      (g.getName j2).toList.map Char.toLower = (g.getName j).toList.map Char.toLower →
      IDataHandler.compare g i2 j2 = IDataHandler.compare g i j) ∧
    (∀ i2 j2 : IDataHandler,
      g.getName i2 = String.mk ((g.getName i).toList.map Char.toUpper) →
      g.getName j2 = String.mk ((g.getName j).toList.map Char.toLower) →
      IDataHandler.compare g i2 j2 = IDataHandler.compare g i j ∧
      IDataHandler.compare g j2 i2 = IDataHandler.compare g j i) ∧
    ((g.getName i).toList.map Char.toLower = (g.getName j).toList.map Char.toLower →
      IDataHandler.compare g i j = false ∧ IDataHandler.compare g j i = false) ∧
    IDataHandler.compare_shared_ptr g i j = IDataHandler.compare g i j ∧
    IDataHandler.compare_ptr g i j = IDataHandler.compare g i j ∧
    IDataHandler.compare exampleGetters (exampleNamed "apple") (exampleNamed "Zoo") = true ∧
    IDataHandler.compare exampleGetters (exampleNamed "Zoo") (exampleNamed "apple") = false ∧
    IDataHandler.compare exampleGetters (exampleNamed "Zoo") (exampleNamed "zOO") = false ∧
    IDataHandler.compare exampleGetters (exampleNamed "zOO") (exampleNamed "Zoo") = false := by
  refine ⟨compare_lowercase_iff _ _, ?_, ?_, ?_, rfl, rfl, by decide, by decide, by decide,
    by decide⟩
  · intro i2 j2 hi hj
    simp only [IDataHandler.compare, compare_lowercase, hi, hj]
  · intro i2 j2 hi hj
    have hi2 := lower_of_upper (g.getName i).toList
    have hj2 := lower_of_lower (g.getName j).toList
    rw [← hi] at hi2
    rw [← hj] at hj2
    constructor
    · simp only [IDataHandler.compare, compare_lowercase, hi2, hj2]
    · simp only [IDataHandler.compare, compare_lowercase, hi2, hj2]
  · intro heq
    constructor
    · simp only [IDataHandler.compare, compare_lowercase, heq, decide_eq_false_iff_not]
      exact lt_irrefl _
    · simp only [IDataHandler.compare, compare_lowercase, heq, decide_eq_false_iff_not]
      exact lt_irrefl _

theorem queue_foldl_push (ps : List IDataHandler) (q : IDataHandlerPtrQueue) :
    (ps.foldl IDataHandlerPtrQueue.push q).c = q.c ++ ps ∧
    (ps.foldl IDataHandlerPtrQueue.push q).comp = q.comp := by
  induction ps generalizing q with
  | nil => simp
  | cons p ps ih =>
    obtain ⟨h1, h2⟩ := ih (q.push p)
    rw [List.foldl_cons, h1, h2]
    simp [IDataHandlerPtrQueue.push]

/-- The scan behind `top`, with the load comparator: the element kept is the
start or one of the scanned elements, and no element has a larger load. -/
theorem scan_keeps_max_load (g : IDataHandlerGetters) (ps : List IDataHandler)
    (oBest : IDataHandler) :
    (ps.foldl (fun oBest oNext =>
        if IDataHandler.compare_load g oBest oNext then oNext else oBest) oBest) ∈ oBest :: ps ∧
    ∀ p ∈ oBest :: ps, g.getExpectedLoad p ≤ g.getExpectedLoad
      (ps.foldl (fun oBest oNext =>
        if IDataHandler.compare_load g oBest oNext then oNext else oBest) oBest) := by
  induction ps generalizing oBest with
  | nil => simp
  | cons q ps ih =>
    simp only [List.foldl_cons]
    by_cases hlt : g.getExpectedLoad oBest < g.getExpectedLoad q
    · have hc : IDataHandler.compare_load g oBest q = true := by
        simp [IDataHandler.compare_load, hlt]
      rw [hc]
      simp only [if_true]
      obtain ⟨hmem, hmax⟩ := ih q
      refine ⟨List.mem_cons_of_mem _ hmem, ?_⟩
      intro p hp
      rcases List.mem_cons.mp hp with rfl | hp2
      · exact le_trans (le_of_lt hlt) (hmax q (List.mem_cons_self _ _))
      · exact hmax p hp2
    · have hc : IDataHandler.compare_load g oBest q = false := by
        simp [IDataHandler.compare_load, hlt]
      rw [hc]
      simp only [Bool.false_eq_true, if_false]
      obtain ⟨hmem, hmax⟩ := ih oBest
      refine ⟨?_, ?_⟩
      · rcases List.mem_cons.mp hmem with h1 | h2
        · rw [h1]; exact List.mem_cons_self _ _
        · exact List.mem_cons_of_mem _ (List.mem_cons_of_mem _ h2)
      · intro p hp
        rcases List.mem_cons.mp hp with rfl | hp2
        · exact hmax p (List.mem_cons_self _ _)
        · rcases List.mem_cons.mp hp2 with rfl | hp3
          · exact le_trans (le_of_not_lt hlt) (hmax oBest (List.mem_cons_self _ _))
          · exact hmax p (List.mem_cons_of_mem _ hp3)

/-- C12: `compare_load` is true exactly when the expected load of `i` is strictly
below that of `j`; it is irreflexive, asymmetric and transitive; its three
overloads agree; and the top of a queue built with it from a non-empty list of
handlers is one of them with a load at least that of every other. -/
theorem compare_load_is_strict_order (g : IDataHandlerGetters) :
    (∀ i j : IDataHandler, IDataHandler.compare_load g i j = true
      ↔ g.getExpectedLoad i < g.getExpectedLoad j) ∧
    (∀ i : IDataHandler, IDataHandler.compare_load g i i = false) ∧
    (∀ i j : IDataHandler, IDataHandler.compare_load g i j = true →
      IDataHandler.compare_load g j i = false) ∧
    (∀ i j k : IDataHandler, IDataHandler.compare_load g i j = true →
      IDataHandler.compare_load g j k = true → IDataHandler.compare_load g i k = true) ∧
    (∀ i j : IDataHandler,
      IDataHandler.compare_load_shared_ptr g i j = IDataHandler.compare_load g i j ∧
      IDataHandler.compare_load_ptr g i j = IDataHandler.compare_load g i j) ∧
    (∀ ps : List IDataHandler, ps ≠ [] →
      ∃ t, (IDataHandlerPtrQueue.ofList (IDataHandler.compare_load g) ps).top = some t ∧
        t ∈ ps ∧ ∀ p ∈ ps, g.getExpectedLoad p ≤ g.getExpectedLoad t) := by
  refine ⟨?_, ?_, ?_, ?_, fun _ _ => ⟨rfl, rfl⟩, ?_⟩
  · intro i j
    simp [IDataHandler.compare_load]
  · intro i
    simp [IDataHandler.compare_load]
  · intro i j h
    simp only [IDataHandler.compare_load, decide_eq_true_eq] at h
    simp only [IDataHandler.compare_load, decide_eq_false_iff_not]
    exact not_lt_of_gt h
  · intro i j k h1 h2
    simp only [IDataHandler.compare_load, decide_eq_true_eq] at h1 h2 ⊢
    exact lt_trans h1 h2
  · intro ps hne
    obtain ⟨hc, hcomp⟩ := queue_foldl_push ps (IDataHandlerPtrQueue.new (IDataHandler.compare_load g))
    cases ps with
    | nil => exact absurd rfl hne
    | cons p ps =>
      have hc2 : (IDataHandlerPtrQueue.ofList (IDataHandler.compare_load g) (p :: ps)).c
          = p :: ps := by
        rw [IDataHandlerPtrQueue.ofList, hc]; rfl
      have hcomp2 : (IDataHandlerPtrQueue.ofList (IDataHandler.compare_load g) (p :: ps)).comp
          = IDataHandler.compare_load g := by
        rw [IDataHandlerPtrQueue.ofList, hcomp]; rfl
      obtain ⟨hmem, hmax⟩ := scan_keeps_max_load g ps p
      refine ⟨_, ?_, hmem, hmax⟩
      simp only [IDataHandlerPtrQueue.top, hc2, hcomp2]

/-! ## The video reader cursor -/

theorem size_t_to_double_exact (n : Nat) (hn : n < 2 ^ 53) : size_t_to_double n = n := by
  have he : halvingsBelow53 64 n = 0 := by
    rw [halvingsBelow53, if_pos hn]
  unfold size_t_to_double
  simp only [he, if_true]

theorem getInputPacket_opened_sameSource (ext : Externals) (fs : FileSystem) (c : WorkBatch)
    (nIdx : Nat) (hopen : c.m_voVideoReader.isOpened = true) :
    c.sameSource (c._getInputPacket_impl ext fs nIdx).2 := by
  by_cases hcur : c.m_nNextExpectedVideoReaderFrameIdx = nIdx
  · simp [WorkBatch._getInputPacket_impl, hopen, hcur, VideoCapture.read,
      WorkBatch.sameSource]
  · simp [WorkBatch._getInputPacket_impl, hopen, hcur, VideoCapture.read,
      VideoCapture.set_POS_FRAMES, WorkBatch.sameSource]

theorem getInputPacket_opened_step (ext : Externals) (fs : FileSystem) (c : WorkBatch)
    (nIdx : Nat) (hopen : c.m_voVideoReader.isOpened = true) (hn : nIdx < 2 ^ 53) :
    (c._getInputPacket_impl ext fs nIdx).2.m_nNextExpectedVideoReaderFrameIdx = nIdx + 1 ∧
    (c._getInputPacket_impl ext fs nIdx).2.m_voVideoReader.seeks
      = c.m_voVideoReader.seeks
        ++ (if c.m_nNextExpectedVideoReaderFrameIdx ≠ nIdx then [nIdx] else []) ∧
    (c.m_voVideoReader.pos = c.m_nNextExpectedVideoReaderFrameIdx →
      (c._getInputPacket_impl ext fs nIdx).2.m_voVideoReader.pos = nIdx + 1 ∧
      (c._getInputPacket_impl ext fs nIdx).1 = c.videoPacket ext nIdx) := by
  have hmod : (nIdx + 1) % 2 ^ 64 = nIdx + 1 := Nat.mod_eq_of_lt (by omega)
  have hdbl := size_t_to_double_exact nIdx hn
  by_cases hcur : c.m_nNextExpectedVideoReaderFrameIdx = nIdx
  · simp [WorkBatch._getInputPacket_impl, hopen, hcur, hmod, VideoCapture.read,
      WorkBatch.videoPacket, WorkBatch.convertFrame]
    refine ⟨by omega, ?_⟩
    intro hpos
    simp [hpos]
  · simp [WorkBatch._getInputPacket_impl, hopen, hcur, hmod, hdbl, VideoCapture.read,
      VideoCapture.set_POS_FRAMES, WorkBatch.videoPacket, WorkBatch.convertFrame]
    omega

theorem sameSource_refl (b : WorkBatch) : b.sameSource b :=
  ⟨rfl, rfl, rfl, rfl, rfl, rfl, rfl⟩

theorem sameSource_trans {b c d : WorkBatch} (h1 : b.sameSource c) (h2 : c.sameSource d) :
    b.sameSource d := by
  obtain ⟨a1, a2, a3, a4, a5, a6, a7⟩ := h1
  obtain ⟨b1, b2, b3, b4, b5, b6, b7⟩ := h2
  exact ⟨b1.trans a1, b2.trans a2, b3.trans a3, b4.trans a4, b5.trans a5, b6.trans a6,
    b7.trans a7⟩

theorem videoPacket_sameSource (ext : Externals) {b c : WorkBatch} (h : b.sameSource c)
    (nIdx : Nat) : c.videoPacket ext nIdx = b.videoPacket ext nIdx := by
  obtain ⟨a1, a2, a3, -, a5, -, -⟩ := h
  simp only [WorkBatch.videoPacket, WorkBatch.convertFrame, a1, a2, a3, a5]

/-- From a state with an opened reader whose position equals the cursor, any
sequence of requests below `2^53` delivers the packets of the requested frames
and ends in such a state again. -/
theorem getInputPackets_opened (ext : Externals) (fs : FileSystem) (reqs : List Nat) :
    ∀ c : WorkBatch, c.m_voVideoReader.isOpened = true →
      c.m_voVideoReader.pos = c.m_nNextExpectedVideoReaderFrameIdx →
      (∀ n ∈ reqs, n < 2 ^ 53) →
      (c.getInputPackets ext fs reqs).1 = reqs.map (c.videoPacket ext) ∧
      (c.getInputPackets ext fs reqs).2.m_voVideoReader.pos
        = (c.getInputPackets ext fs reqs).2.m_nNextExpectedVideoReaderFrameIdx ∧
      c.sameSource (c.getInputPackets ext fs reqs).2 := by
  induction reqs with
  | nil => intro c _ hpos _; exact ⟨rfl, hpos, sameSource_refl c⟩
  | cons nIdx rest ih =>
    intro c hopen hpos hreqs
    have hn : nIdx < 2 ^ 53 := hreqs nIdx (List.mem_cons_self _ _)
    have hsame := getInputPacket_opened_sameSource ext fs c nIdx hopen
    obtain ⟨hcur, -, hstep⟩ := getInputPacket_opened_step ext fs c nIdx hopen hn
    obtain ⟨hpos1, hval⟩ := hstep hpos
    have hopen1 : (c._getInputPacket_impl ext fs nIdx).2.m_voVideoReader.isOpened = true := by
      rw [hsame.2.2.2.2.2.1]; exact hopen
    obtain ⟨hrest, hposN, hsameN⟩ :=
      ih (c._getInputPacket_impl ext fs nIdx).2 hopen1 (by rw [hpos1, hcur])
        (fun n hmem => hreqs n (List.mem_cons_of_mem _ hmem))
    refine ⟨?_, hposN, sameSource_trans hsame hsameN⟩
    have hmap : List.map ((c._getInputPacket_impl ext fs nIdx).2.videoPacket ext) rest
        = List.map (c.videoPacket ext) rest :=
      List.map_congr_left (fun n _ => videoPacket_sameSource ext hsame n)
    rw [WorkBatch.getInputPackets, List.map_cons, hval, hrest, hmap]

theorem parseDataset_opened (ext : Externals) (fs : FileSystem) (b0 : WorkBatch)
    (hparse : (b0.parseDataset ext fs).1 = .ok ())
    (hopen : (b0.parseDataset ext fs).2.m_voVideoReader.isOpened = true) :
    (b0.parseDataset ext fs).2.m_voVideoReader.pos = 0 ∧
    (b0.parseDataset ext fs).2.m_nNextExpectedVideoReaderFrameIdx = 0 := by
  unfold WorkBatch.parseDataset at hparse hopen ⊢
  by_cases ho : (ext.videoOpen b0.getPath).isOpened = true
  · simp only [ho, Bool.not_true, Bool.false_eq_true, if_false] at hparse hopen ⊢
    split at hparse
    · cases hparse
    · rename_i hne
      simp only [hne, Bool.false_eq_true, if_false] at hopen ⊢
      split <;> simp [VideoCapture.set_POS_FRAMES, VideoCapture.read]
  · simp only [ho, Bool.not_false, if_true] at hparse hopen ⊢
    exfalso
    cases hfiles : ext.getFilesFromDir b0.getPath with
    | nil => simp [hfiles, Mat.isEmpty, Mat.empty] at hparse
    | cons sFirst vsRest =>
      simp only [hfiles] at hopen
      split at hopen
      · exact ho hopen
      · split at hopen <;> exact ho hopen
/-- C13 (amended): on a leaf with an opened video reader and for requests below
`2^53`, every `_getInputPacket_impl(nIdx)` leaves the cursor at `nIdx + 1` and
seeks to `nIdx` exactly when `nIdx` differs from the cursor before the call.
After a successful `parseDataset` the reader position and the cursor are both
0; after any sequence of such requests the reader position equals the cursor,
and each call returns the packet of frame `nIdx`. -/
theorem video_cursor_tracks_reader (ext : Externals) (fs : FileSystem) (b0 : WorkBatch)
    (reqs : List Nat) (nIdx : Nat)
    (hparse : (b0.parseDataset ext fs).1 = .ok ())
    (hopen : (b0.parseDataset ext fs).2.m_voVideoReader.isOpened = true)
    (hreqs : ∀ n ∈ reqs, n < 2 ^ 53) (hn : nIdx < 2 ^ 53) :
    (∀ c : WorkBatch, c.m_voVideoReader.isOpened = true →
      (c._getInputPacket_impl ext fs nIdx).2.m_nNextExpectedVideoReaderFrameIdx = nIdx + 1 ∧
      (c._getInputPacket_impl ext fs nIdx).2.m_voVideoReader.seeks
        = c.m_voVideoReader.seeks
          ++ (if c.m_nNextExpectedVideoReaderFrameIdx ≠ nIdx then [nIdx] else [])) ∧
    (b0.parseDataset ext fs).2.m_voVideoReader.pos = 0 ∧
    (b0.parseDataset ext fs).2.m_nNextExpectedVideoReaderFrameIdx = 0 ∧
    ((b0.parseDataset ext fs).2.getInputPackets ext fs reqs).2.m_voVideoReader.pos
      = ((b0.parseDataset ext fs).2.getInputPackets ext fs
          reqs).2.m_nNextExpectedVideoReaderFrameIdx ∧
    ((b0.parseDataset ext fs).2.getInputPackets ext fs reqs).1
      = reqs.map ((b0.parseDataset ext fs).2.videoPacket ext) ∧
    ((((b0.parseDataset ext fs).2.getInputPackets ext fs reqs).2)._getInputPacket_impl ext fs
        nIdx).1 = (b0.parseDataset ext fs).2.videoPacket ext nIdx := by
  obtain ⟨hp0, hc0⟩ := parseDataset_opened ext fs b0 hparse hopen
  obtain ⟨hvals, hposN, hsame⟩ :=
    getInputPackets_opened ext fs reqs (b0.parseDataset ext fs).2 hopen (by rw [hp0, hc0])
      hreqs
  have hopenN : ((b0.parseDataset ext fs).2.getInputPackets ext fs
      reqs).2.m_voVideoReader.isOpened = true := by
    rw [hsame.2.2.2.2.2.1]; exact hopen
  refine ⟨?_, hp0, hc0, hposN, hvals, ?_⟩
  · intro c hc
    obtain ⟨h1, h2, -⟩ := getInputPacket_opened_step ext fs c nIdx hc hn
    exact ⟨h1, h2⟩
  · obtain ⟨-, -, hstep⟩ := getInputPacket_opened_step ext fs _ nIdx hopenN hn
    rw [(hstep hposN).2]
    exact videoPacket_sameSource ext hsame nIdx

/-- Witness for C13 (amended): the example leaf opens a video of three frames
whose reader stands at position 7; the requests 0, 1, 1, 2, 0 deliver those
frames, with a seek only for the repeated 1 and for the return to 0. -/
theorem video_cursor_tracks_reader_witness :
    ((exampleBatch 1 0).parseDataset exampleVideoExternals []).1 = .ok () ∧
    ((exampleBatch 1 0).parseDataset exampleVideoExternals []).2.m_voVideoReader.isOpened
      = true ∧
    (∀ n ∈ [0, 1, 1, 2, 0], n < 2 ^ 53) ∧ (0 < 2 ^ 53) ∧
    ((∀ c : WorkBatch, c.m_voVideoReader.isOpened = true →
      (c._getInputPacket_impl exampleVideoExternals [] 0).2.m_nNextExpectedVideoReaderFrameIdx
        = 0 + 1 ∧
      (c._getInputPacket_impl exampleVideoExternals [] 0).2.m_voVideoReader.seeks
        = c.m_voVideoReader.seeks
          ++ (if c.m_nNextExpectedVideoReaderFrameIdx ≠ 0 then [0] else [])) ∧
    exampleVideoBatch.m_voVideoReader.pos = 0 ∧
    exampleVideoBatch.m_nNextExpectedVideoReaderFrameIdx = 0 ∧
    (exampleVideoBatch.getInputPackets exampleVideoExternals []
        [0, 1, 1, 2, 0]).2.m_voVideoReader.pos
      = (exampleVideoBatch.getInputPackets exampleVideoExternals []
          [0, 1, 1, 2, 0]).2.m_nNextExpectedVideoReaderFrameIdx ∧
    (exampleVideoBatch.getInputPackets exampleVideoExternals [] [0, 1, 1, 2, 0]).1
      = [0, 1, 1, 2, 0].map (exampleVideoBatch.videoPacket exampleVideoExternals) ∧
    (((exampleVideoBatch.getInputPackets exampleVideoExternals []
        [0, 1, 1, 2, 0]).2)._getInputPacket_impl exampleVideoExternals [] 0).1
      = exampleVideoBatch.videoPacket exampleVideoExternals 0) ∧
    ((exampleVideoBatch.getInputPackets exampleVideoExternals [] [0, 1, 1, 2, 0]).1.map
      (fun m => m.data) = [[0], [1], [1], [2], [0]]) ∧
    ((exampleVideoBatch.getInputPackets exampleVideoExternals []
      [0, 1, 1, 2, 0]).2.m_voVideoReader.seeks = [0, 0, 1, 0]) :=
  ⟨rfl, rfl, by decide, by decide,
    video_cursor_tracks_reader exampleVideoExternals [] (exampleBatch 1 0) [0, 1, 1, 2, 0] 0
      rfl rfl (by decide) (by decide),
    by decide, by decide⟩

/-- C13 counterexample: on the example leaf with its opened reader, a request for
index `2^53 + 1` seeks to `(double)nIdx = 2^53`, not to the index, and leaves
the reader at `2^53 + 1` while the cursor is `2^53 + 2`; a request for index
`2^64 - 1` leaves the cursor at 0. -/
theorem video_cursor_large_index_diverges :
    exampleVideoBatch.m_voVideoReader.isOpened = true ∧
    (exampleVideoBatch._getInputPacket_impl exampleVideoExternals []
      (2 ^ 53 + 1)).2.m_voVideoReader.seeks = [0, 0, 2 ^ 53] ∧
    (exampleVideoBatch._getInputPacket_impl exampleVideoExternals []
      (2 ^ 53 + 1)).2.m_voVideoReader.pos = 2 ^ 53 + 1 ∧
    (exampleVideoBatch._getInputPacket_impl exampleVideoExternals []
      (2 ^ 53 + 1)).2.m_nNextExpectedVideoReaderFrameIdx = 2 ^ 53 + 2 ∧
    (exampleVideoBatch._getInputPacket_impl exampleVideoExternals []
      (2 ^ 53 + 1)).2.m_voVideoReader.pos
      ≠ (exampleVideoBatch._getInputPacket_impl exampleVideoExternals []
        (2 ^ 53 + 1)).2.m_nNextExpectedVideoReaderFrameIdx ∧
    (exampleVideoBatch._getInputPacket_impl exampleVideoExternals []
      (2 ^ 64 - 1)).2.m_nNextExpectedVideoReaderFrameIdx = 0 ∧
    (exampleVideoBatch._getInputPacket_impl exampleVideoExternals []
      (2 ^ 64 - 1)).2.m_nNextExpectedVideoReaderFrameIdx ≠ (2 ^ 64 - 1) + 1 := by
  decide

/-! ## Precaching budget of a leaf -/

theorem fitted_byteSize (ext : Externals) (m : Mat) (oSize : Size) :
    (if m.size ≠ oSize then resize ext m oSize else m).byteSize
      = oSize.width * oSize.height * m.channels := by
  by_cases h : m.size = oSize
  · simp only [h, ne_eq, not_true_eq_false, if_false, Mat.byteSize]
    rw [← h]
    simp only [Mat.size]
    rw [Nat.mul_comm m.rows m.cols]
  · simp only [ne_eq, h, not_false_eq_true, if_true, resize, Mat.byteSize]
    rw [Nat.mul_comm oSize.height oSize.width]

theorem frame_channels_le (v : VideoCapture) (n : Nat)
    (hch : ∀ f ∈ v.frames, f.channels ≤ 3) : (v.frames.getD n Mat.empty).channels ≤ 3 := by
  by_cases hn : n < v.frames.length
  · rw [List.getD_eq_getElem _ _ hn]
    exact hch _ (List.getElem_mem _)
  · rw [List.getD_eq_default _ _ (by omega)]
    simp [Mat.empty]

theorem imread_channels_le (ext : Externals) (fs : FileSystem) (sPath : String)
    (bGrayscale : Bool) :
    (imread ext fs sPath bGrayscale).channels ≤ (if bGrayscale then 1 else 3) := by
  unfold imread
  cases fs.lookup sPath with
  | none => simp [Mat.empty]
  | some m => simp

theorem getInputPacket_sameSource (ext : Externals) (fs : FileSystem) (c : WorkBatch)
    (nIdx : Nat) : c.sameSource (c._getInputPacket_impl ext fs nIdx).2 := by
  by_cases hopen : c.m_voVideoReader.isOpened = true
  · exact getInputPacket_opened_sameSource ext fs c nIdx hopen
  · simp [WorkBatch._getInputPacket_impl, hopen, WorkBatch.sameSource]

theorem convertFrame_byteSize_le (ext : Externals) (c : WorkBatch) (oFrame : Mat)
    (hch : oFrame.channels ≤ 3) :
    (c.convertFrame ext oFrame).byteSize
      ≤ c.m_oSize.width * c.m_oSize.height * c.bytesPerPixel := by
  unfold WorkBatch.convertFrame
  simp only []
  rw [fitted_byteSize]
  apply Nat.mul_le_mul_left
  by_cases hgray : c.isGrayscale = true <;>
  by_cases ha : c.getDatasetInfo.is4ByteAligned = true <;>
  by_cases h1 : oFrame.channels > 1 <;>
  by_cases h3 : oFrame.channels = 3 <;>
  simp [hgray, ha, h1, h3, WorkBatch.bytesPerPixel, cvtColor_BGR2GRAY, cvtColor_BGR2BGRA] <;>
  omega

/-- The packet of a call is the conversion of the frame it read. -/
theorem getInputPacket_eq_convertFrame (ext : Externals) (fs : FileSystem) (c : WorkBatch)
    (nIdx : Nat) :
    (c._getInputPacket_impl ext fs nIdx).1
      = c.convertFrame ext
          (if c.m_voVideoReader.isOpened then
            c.m_voVideoReader.frames.getD
              (if c.m_nNextExpectedVideoReaderFrameIdx = nIdx then c.m_voVideoReader.pos
                else size_t_to_double nIdx) Mat.empty
          else imread ext fs (c.m_vsInputFramePaths.getD nIdx "") c.isGrayscale) := by
  by_cases hopen : c.m_voVideoReader.isOpened = true
  · by_cases hcur : c.m_nNextExpectedVideoReaderFrameIdx = nIdx
    · simp [WorkBatch._getInputPacket_impl, hopen, hcur, VideoCapture.read,
        WorkBatch.convertFrame]
    · simp [WorkBatch._getInputPacket_impl, hopen, hcur, VideoCapture.read,
        VideoCapture.set_POS_FRAMES, WorkBatch.convertFrame]
  · have hle := imread_channels_le ext fs (c.m_vsInputFramePaths.getD nIdx "") c.isGrayscale
    have hraw : (c._getInputPacket_impl ext fs nIdx).1
        = (if (if c.getDatasetInfo.is4ByteAligned
              && (imread ext fs (c.m_vsInputFramePaths.getD nIdx "") c.isGrayscale).channels == 3
              then cvtColor_BGR2BGRA ext
                (imread ext fs (c.m_vsInputFramePaths.getD nIdx "") c.isGrayscale)
              else imread ext fs (c.m_vsInputFramePaths.getD nIdx "") c.isGrayscale).size
              ≠ c.m_oSize
            then resize ext
              (if c.getDatasetInfo.is4ByteAligned
                && (imread ext fs (c.m_vsInputFramePaths.getD nIdx "") c.isGrayscale).channels
                  == 3
                then cvtColor_BGR2BGRA ext
                  (imread ext fs (c.m_vsInputFramePaths.getD nIdx "") c.isGrayscale)
                else imread ext fs (c.m_vsInputFramePaths.getD nIdx "") c.isGrayscale) c.m_oSize
            else
              (if c.getDatasetInfo.is4ByteAligned
                && (imread ext fs (c.m_vsInputFramePaths.getD nIdx "") c.isGrayscale).channels
                  == 3
                then cvtColor_BGR2BGRA ext
                  (imread ext fs (c.m_vsInputFramePaths.getD nIdx "") c.isGrayscale)
                else imread ext fs (c.m_vsInputFramePaths.getD nIdx "") c.isGrayscale)) := by
      unfold WorkBatch._getInputPacket_impl
      simp only [hopen, Bool.not_false, if_true]
    rw [hraw]
    unfold WorkBatch.convertFrame
    simp only [hopen, Bool.false_eq_true, if_false]
    generalize imread ext fs (c.m_vsInputFramePaths.getD nIdx "") c.isGrayscale = m at hle
    have hnogray : (if c.isGrayscale && decide (m.channels > 1) then cvtColor_BGR2GRAY ext m
        else m) = m := by
      by_cases hgray : c.isGrayscale = true
      · simp only [hgray, if_true] at hle
        have hno : ¬ m.channels > 1 := by omega
        simp [hgray, hno]
      · simp [hgray]
    rw [hnogray]
theorem getInputPacket_byteSize_le (ext : Externals) (fs : FileSystem) (c : WorkBatch)
    (nIdx : Nat) (hch : ∀ f ∈ c.m_voVideoReader.frames, f.channels ≤ 3) :
    (c._getInputPacket_impl ext fs nIdx).1.byteSize
      ≤ c.m_oSize.width * c.m_oSize.height * c.bytesPerPixel := by
  rw [getInputPacket_eq_convertFrame]
  apply convertFrame_byteSize_le
  split
  · exact frame_channels_le c.m_voVideoReader _ hch
  · have hle := imread_channels_le ext fs (c.m_vsInputFramePaths.getD nIdx "") c.isGrayscale
    split at hle <;> omega

theorem getInputPackets_byteSize_le (ext : Externals) (fs : FileSystem) (reqs : List Nat) :
    ∀ c : WorkBatch, (∀ f ∈ c.m_voVideoReader.frames, f.channels ≤ 3) →
      ((c.getInputPackets ext fs reqs).1.map Mat.byteSize).sum
        ≤ reqs.length * (c.m_oSize.width * c.m_oSize.height * c.bytesPerPixel) := by
  induction reqs with
  | nil => intro c _; simp [WorkBatch.getInputPackets]
  | cons nIdx rest ih =>
    intro c hch
    have hsame := getInputPacket_sameSource ext fs c nIdx
    obtain ⟨a1, a2, a3, -, a5, -, -⟩ := hsame
    have hfirst := getInputPacket_byteSize_le ext fs c nIdx hch
    have hrest := ih (c._getInputPacket_impl ext fs nIdx).2 (by rw [a5]; exact hch)
    simp only [WorkBatch.bytesPerPixel, a1, a2, a3] at hrest
    simp only [WorkBatch.bytesPerPixel] at hfirst
    rw [WorkBatch.getInputPackets]
    simp only [List.map_cons, List.sum_cons, List.length_cons, WorkBatch.bytesPerPixel]
    rw [Nat.add_mul, Nat.one_mul]
    omega

theorem precacheBufferSize_eq (b : WorkBatch)
    (harea : b.m_oSize.width * b.m_oSize.height < 2 ^ 31)
    (hfit : b.m_oSize.width * b.m_oSize.height * (b.m_nFrameCount + 1) * b.bytesPerPixel
      < 2 ^ 64) :
    b.precacheBufferSize
      = b.m_oSize.width * b.m_oSize.height * (b.m_nFrameCount + 1) * b.bytesPerPixel := by
  have harea2 : toSizeT b.m_oSize.area = b.m_oSize.width * b.m_oSize.height := by
    unfold toSizeT Size.area
    generalize b.m_oSize.width * b.m_oSize.height = a at harea
    omega
  have hbpp : 1 ≤ b.bytesPerPixel := by
    unfold WorkBatch.bytesPerPixel
    split_ifs <;> omega
  unfold WorkBatch.precacheBufferSize
  rw [harea2]
  generalize b.m_oSize.width * b.m_oSize.height = a at hfit harea
  generalize b.bytesPerPixel = p at hfit hbpp
  generalize b.m_nFrameCount + 1 = n at hfit
  rcases Nat.eq_zero_or_pos a with ha | ha
  · subst ha; simp
  · have h1 : a * n ≤ a * n * p := Nat.le_mul_of_pos_right _ hbpp
    have h2 : n ≤ a * n := Nat.le_mul_of_pos_left _ ha
    rw [Nat.mod_eq_of_lt (show n < 2 ^ 64 by omega),
      Nat.mod_eq_of_lt (show a * n < 2 ^ 64 by omega), Nat.mod_eq_of_lt hfit]

/-- C14: `startPrecaching` of the video segmentation leaf ignores the suggested
buffer size; absent overflow (the area fits `int`, the product fits `size_t`)
the budget it requests is `width * height * (frameCount + 1) * bytesPerPixel`
with 1, 4 or 3 bytes per pixel for a grayscale leaf, a 4-byte aligned dataset,
or neither; and, the decoded frames having at most three channels, the packets
of any `frameCount` requests take no more bytes than this budget. -/
theorem startPrecaching_requests_budget (ext : Externals) (fs : FileSystem) (b : WorkBatch)
    (bUsingGT : Bool) (nUnused : Nat) (reqs : List Nat)
    (harea : b.m_oSize.width * b.m_oSize.height < 2 ^ 31)
    (hfit : b.m_oSize.width * b.m_oSize.height * (b.m_nFrameCount + 1) * b.bytesPerPixel
      < 2 ^ 64)
    (hch : ∀ f ∈ b.m_voVideoReader.frames, f.channels ≤ 3)
    (hlen : reqs.length = b.m_nFrameCount) :
    (∀ nOther : Nat, b.startPrecaching bUsingGT nOther = b.startPrecaching bUsingGT nUnused) ∧
    b.startPrecaching bUsingGT nUnused
      = b.IDataLoader_startPrecaching bUsingGT
          (b.m_oSize.width * b.m_oSize.height * (b.m_nFrameCount + 1) * b.bytesPerPixel) ∧
    b.bytesPerPixel
      = (if b.isGrayscale then 1 else if b.getDatasetInfo.is4ByteAligned then 4 else 3) ∧
    ((b.getInputPackets ext fs reqs).1.map Mat.byteSize).sum
      ≤ b.m_oSize.width * b.m_oSize.height * (b.m_nFrameCount + 1) * b.bytesPerPixel := by
  refine ⟨fun _ => rfl, ?_, rfl, ?_⟩
  · rw [WorkBatch.startPrecaching, precacheBufferSize_eq b harea hfit]
  · have hsum := getInputPackets_byteSize_le ext fs reqs b hch
    rw [hlen] at hsum
    have hle : b.m_nFrameCount * (b.m_oSize.width * b.m_oSize.height * b.bytesPerPixel)
        ≤ b.m_oSize.width * b.m_oSize.height * (b.m_nFrameCount + 1) * b.bytesPerPixel := by
      generalize b.m_oSize.width * b.m_oSize.height = a
      generalize b.bytesPerPixel = p
      have : a * (b.m_nFrameCount + 1) * p = b.m_nFrameCount * (a * p) + a * p := by ring
      omega
    exact Nat.le_trans hsum hle

/-- Witness for C14: the example leaf of three frames of 2 by 2 pixels, read as
grayscale, requests 2 * 2 * 4 * 1 = 16 bytes whatever size is suggested, and its
three packets take 12 bytes. -/
theorem startPrecaching_requests_budget_witness :
    (exampleVideoBatch.m_oSize.width * exampleVideoBatch.m_oSize.height < 2 ^ 31) ∧
    (exampleVideoBatch.m_oSize.width * exampleVideoBatch.m_oSize.height
      * (exampleVideoBatch.m_nFrameCount + 1) * exampleVideoBatch.bytesPerPixel < 2 ^ 64) ∧
    (∀ f ∈ exampleVideoBatch.m_voVideoReader.frames, f.channels ≤ 3) ∧
    ([0, 1, 2].length = exampleVideoBatch.m_nFrameCount) ∧
    ((∀ nOther : Nat, exampleVideoBatch.startPrecaching true nOther
        = exampleVideoBatch.startPrecaching true 1000) ∧
      exampleVideoBatch.startPrecaching true 1000
        = exampleVideoBatch.IDataLoader_startPrecaching true
            (exampleVideoBatch.m_oSize.width * exampleVideoBatch.m_oSize.height
              * (exampleVideoBatch.m_nFrameCount + 1) * exampleVideoBatch.bytesPerPixel) ∧
      exampleVideoBatch.bytesPerPixel
        = (if exampleVideoBatch.isGrayscale then 1
            else if exampleVideoBatch.getDatasetInfo.is4ByteAligned then 4 else 3) ∧
      ((exampleVideoBatch.getInputPackets exampleVideoExternals [] [0, 1, 2]).1.map
          Mat.byteSize).sum
        ≤ exampleVideoBatch.m_oSize.width * exampleVideoBatch.m_oSize.height
            * (exampleVideoBatch.m_nFrameCount + 1) * exampleVideoBatch.bytesPerPixel) ∧
    exampleVideoBatch.precacheBufferSize = 16 ∧
    ((exampleVideoBatch.getInputPackets exampleVideoExternals [] [0, 1, 2]).1.map
      Mat.byteSize).sum = 12 :=
  ⟨by decide, by decide, by decide, by decide,
    startPrecaching_requests_budget exampleVideoExternals [] exampleVideoBatch true 1000
      [0, 1, 2] (by decide) (by decide) (by decide) (by decide),
    by decide, by decide⟩

/-! ## Result file paths -/

theorem digitValue_digitChar (k : Nat) (hk : k < 10) : digitValue (Nat.digitChar k) = k := by
  interval_cases k <;> rfl

theorem decimalValue_toDigitsCore (fuel : Nat) :
    ∀ (n : Nat) (ds : List Char), n < fuel →
      decimalValue (Nat.toDigitsCore 10 fuel n ds) = n * 10 ^ ds.length + decimalValue ds := by
  induction fuel with
  | zero => intro n ds hn; omega
  | succ fuel ih =>
    intro n ds hn
    have hd : digitValue (Nat.digitChar (n % 10)) = n % 10 :=
      digitValue_digitChar _ (Nat.mod_lt _ (by decide))
    by_cases hz : n / 10 = 0
    · simp only [Nat.toDigitsCore, hz, if_true, decimalValue, hd]
      have : n % 10 = n := by omega
      rw [this]
    · simp only [Nat.toDigitsCore, hz, if_false]
      rw [ih (n / 10) _ (by omega)]
      simp only [decimalValue, hd, List.length_cons, pow_succ]
      have hn10 : n = 10 * (n / 10) + n % 10 := (Nat.div_add_mod n 10).symm
      generalize 10 ^ ds.length = q
      generalize decimalValue ds = v
      generalize n / 10 = a at hn10
      generalize n % 10 = r at hn10
      subst hn10
      ring

theorem decimalValue_toDigits (n : Nat) : decimalValue (Nat.toDigits 10 n) = n := by
  rw [Nat.toDigits, decimalValue_toDigitsCore (n + 1) n [] (by omega)]
  simp [decimalValue]

theorem decimalValue_zeros (k : Nat) (ds : List Char) :
    decimalValue (List.replicate k '0' ++ ds) = decimalValue ds := by
  induction k with
  | zero => simp
  | succ k ih =>
    rw [List.replicate_succ, List.cons_append, decimalValue, ih]
    have : digitValue '0' = 0 := rfl
    rw [this]
    simp

theorem decimalValue_zeroPadded6 (n : Nat) : decimalValue (zeroPadded6 n) = n := by
  rw [zeroPadded6, decimalValue_zeros, decimalValue_toDigits]

theorem toDigits_length_le (n : Nat) (hn : n < 10 ^ 9) : (Nat.toDigits 10 n).length ≤ 9 :=
  Nat.toDigitsCore_length 10 (by decide) (n + 1) n 9 hn (by decide)

theorem snprintf_06zu_eq (n : Nat) (hn : n < 10 ^ 9) :
    snprintf_06zu 10 n = String.mk (zeroPadded6 n) := by
  have hlen := toDigits_length_le n hn
  unfold snprintf_06zu zeroPadded6
  simp only []
  rw [List.take_of_length_le]
  rw [List.length_append, List.length_replicate]
  omega

theorem snprintf_06zu_injective (n m : Nat) (hn : n < 10 ^ 9) (hm : m < 10 ^ 9)
    (h : snprintf_06zu 10 n = snprintf_06zu 10 m) : n = m := by
  rw [snprintf_06zu_eq n hn, snprintf_06zu_eq m hm] at h
  have hdata : zeroPadded6 n = zeroPadded6 m := by
    injection h
  have := congrArg decimalValue hdata
  rwa [decimalValue_zeroPadded6, decimalValue_zeroPadded6] at this

theorem resultFilePath_injective (b : WorkBatch) (n m : Nat) (hn : n < 10 ^ 9)
    (hm : m < 10 ^ 9) (h : b.resultFilePath n = b.resultFilePath m) : n = m := by
  apply snprintf_06zu_injective n m hn hm
  unfold WorkBatch.resultFilePath at h
  have hdata := congrArg String.data h
  simp only [String.data_append] at hdata
  have h1 := List.append_cancel_right hdata
  have h2 := List.append_cancel_left h1
  exact String.ext h2

theorem zeroPadded6_length (n : Nat) : 6 ≤ (zeroPadded6 n).length := by
  rw [zeroPadded6, List.length_append, List.length_replicate]
  omega

/-- C15: `readResult` and `writeResult` build the same path, the results path, the
name prefix, the zero-padded index and the name suffix; for an index below
`10^9` the 10-byte buffer holds all the decimal digits of the index,
left-padded with zeros to at least six characters; so distinct indices below
`10^9` give distinct paths. With a non-empty name suffix `writeResult` succeeds
and stores the image under that path and `readResult` reads the image under
that path (with an empty suffix both fail their assertion); a result written
for `n` is the one read back for `n`, and the write leaves the result of
another index `m` as it was. -/
theorem result_path_roundtrip (ext : Externals) (b : WorkBatch) (fs : FileSystem)
    (oSegm : Mat) (n m : Nat) (hn : n < 10 ^ 9) (hm : m < 10 ^ 9) :
    b.readResultFilePath n = b.resultFilePath n ∧
    b.resultFilePath n
      = b.getResultsPath ++ b.getDatasetInfo.getResultsNamePrefix
        ++ String.mk (List.replicate (6 - (Nat.toDigits 10 n).length) '0' ++ Nat.toDigits 10 n)
        ++ b.getDatasetInfo.getResultsNameSuffix ∧
    6 ≤ (zeroPadded6 n).length ∧ decimalValue (zeroPadded6 n) = n ∧
    (n ≠ m → b.resultFilePath n ≠ b.resultFilePath m) ∧
    (∀ fs1 : FileSystem, b.writeResult fs oSegm n = .ok fs1 →
      b.readResult ext fs1 n
        = .ok { oSegm with
            channels := if b.isGrayscale then 1 else 3
            data := ext.imreadData b.isGrayscale oSegm } ∧
      (n ≠ m → b.readResult ext fs1 m = b.readResult ext fs m)) ∧
    (b.getDatasetInfo.getResultsNameSuffix.isEmpty = false →
      b.writeResult fs oSegm n
        = .ok ((b.getResultsPath ++ b.getDatasetInfo.getResultsNamePrefix
            ++ String.mk (List.replicate (6 - (Nat.toDigits 10 n).length) '0'
                ++ Nat.toDigits 10 n)
            ++ b.getDatasetInfo.getResultsNameSuffix, oSegm) :: fs) ∧
      b.readResult ext fs n
        = .ok (imread ext fs
            (b.getResultsPath ++ b.getDatasetInfo.getResultsNamePrefix
              ++ String.mk (List.replicate (6 - (Nat.toDigits 10 n).length) '0'
                  ++ Nat.toDigits 10 n)
              ++ b.getDatasetInfo.getResultsNameSuffix) b.isGrayscale) ∧
      b.readResult ext
          ((b.getResultsPath ++ b.getDatasetInfo.getResultsNamePrefix
            ++ String.mk (List.replicate (6 - (Nat.toDigits 10 n).length) '0'
                ++ Nat.toDigits 10 n)
            ++ b.getDatasetInfo.getResultsNameSuffix, oSegm) :: fs) n
        = .ok { oSegm with
            channels := if b.isGrayscale then 1 else 3
            data := ext.imreadData b.isGrayscale oSegm }) ∧
    (b.getDatasetInfo.getResultsNameSuffix.isEmpty = true →
      b.writeResult fs oSegm n = .error .assertion ∧
      b.readResult ext fs n = .error .assertion) := by
  have hpathn : b.resultFilePath n
      = b.getResultsPath ++ b.getDatasetInfo.getResultsNamePrefix
        ++ String.mk (List.replicate (6 - (Nat.toDigits 10 n).length) '0' ++ Nat.toDigits 10 n)
        ++ b.getDatasetInfo.getResultsNameSuffix := by
    rw [WorkBatch.resultFilePath, snprintf_06zu_eq n hn, zeroPadded6]
  have hsame : ∀ k, b.readResultFilePath k = b.resultFilePath k := fun _ => rfl
  refine ⟨rfl, hpathn, zeroPadded6_length n, decimalValue_zeroPadded6 n, ?_, ?_, ?_, ?_⟩
  · intro hne heq
    exact hne (resultFilePath_injective b n m hn hm heq)
  · intro fs1 hw
    unfold WorkBatch.writeResult at hw
    split at hw
    · cases hw
    · rename_i hsuf
      injection hw with hfs
      subst hfs
      constructor
      · simp [WorkBatch.readResult, hsuf, imread, hsame, List.lookup]
      · intro hne
        have hpath : (b.resultFilePath m == b.resultFilePath n) = false := by
          rw [beq_eq_false_iff_ne]
          intro heq
          exact hne (resultFilePath_injective b n m hn hm heq.symm)
        simp [WorkBatch.readResult, hsuf, imread, hsame, List.lookup, hpath]
  · intro hsuf
    rw [← hpathn]
    refine ⟨?_, ?_, ?_⟩
    · simp [WorkBatch.writeResult, hsuf]
    · simp [WorkBatch.readResult, hsuf, hsame]
    · simp [WorkBatch.readResult, hsuf, imread, hsame, List.lookup]
  · intro hsuf
    constructor
    · simp [WorkBatch.writeResult, hsuf]
    · simp [WorkBatch.readResult, hsuf]

/-- Witness for C15: the example leaf writes a result for index 42 under
`results/bin000042.png` and reads it back; index 43 has another path. -/
theorem result_path_roundtrip_witness :
    (42 < 10 ^ 9) ∧ (43 < 10 ^ 9) ∧
    (
      (exampleBatch 1 5).readResultFilePath 42 = (exampleBatch 1 5).resultFilePath 42 ∧
      (exampleBatch 1 5).resultFilePath 42
        = (exampleBatch 1 5).getResultsPath ++ (exampleBatch 1 5).getDatasetInfo.getResultsNamePrefix
          ++ String.mk (List.replicate (6 - (Nat.toDigits 10 42).length) '0' ++ Nat.toDigits 10 42)
          ++ (exampleBatch 1 5).getDatasetInfo.getResultsNameSuffix ∧
      6 ≤ (zeroPadded6 42).length ∧ decimalValue (zeroPadded6 42) = 42 ∧
      (42 ≠ 43 → (exampleBatch 1 5).resultFilePath 42 ≠ (exampleBatch 1 5).resultFilePath 43) ∧
      (∀ fs1 : FileSystem, (exampleBatch 1 5).writeResult [] (examplePacket 9 9) 42 = .ok fs1 →
        (exampleBatch 1 5).readResult exampleExternals fs1 42
          = .ok { (examplePacket 9 9) with
              channels := if (exampleBatch 1 5).isGrayscale then 1 else 3
              data := exampleExternals.imreadData (exampleBatch 1 5).isGrayscale (examplePacket 9 9) } ∧
        (42 ≠ 43 → (exampleBatch 1 5).readResult exampleExternals fs1 43 = (exampleBatch 1 5).readResult exampleExternals [] 43)) ∧
      ((exampleBatch 1 5).getDatasetInfo.getResultsNameSuffix.isEmpty = false →
        (exampleBatch 1 5).writeResult [] (examplePacket 9 9) 42
          = .ok (((exampleBatch 1 5).getResultsPath ++ (exampleBatch 1 5).getDatasetInfo.getResultsNamePrefix
              ++ String.mk (List.replicate (6 - (Nat.toDigits 10 42).length) '0'
                  ++ Nat.toDigits 10 42)
              ++ (exampleBatch 1 5).getDatasetInfo.getResultsNameSuffix, (examplePacket 9 9)) :: []) ∧
        (exampleBatch 1 5).readResult exampleExternals [] 42
          = .ok (imread exampleExternals []
              ((exampleBatch 1 5).getResultsPath ++ (exampleBatch 1 5).getDatasetInfo.getResultsNamePrefix
                ++ String.mk (List.replicate (6 - (Nat.toDigits 10 42).length) '0'
                    ++ Nat.toDigits 10 42)
                ++ (exampleBatch 1 5).getDatasetInfo.getResultsNameSuffix) (exampleBatch 1 5).isGrayscale) ∧
        (exampleBatch 1 5).readResult exampleExternals
            (((exampleBatch 1 5).getResultsPath ++ (exampleBatch 1 5).getDatasetInfo.getResultsNamePrefix
              ++ String.mk (List.replicate (6 - (Nat.toDigits 10 42).length) '0'
                  ++ Nat.toDigits 10 42)
              ++ (exampleBatch 1 5).getDatasetInfo.getResultsNameSuffix, (examplePacket 9 9)) :: []) 42
          = .ok { (examplePacket 9 9) with
              channels := if (exampleBatch 1 5).isGrayscale then 1 else 3
              data := exampleExternals.imreadData (exampleBatch 1 5).isGrayscale (examplePacket 9 9) }) ∧
      ((exampleBatch 1 5).getDatasetInfo.getResultsNameSuffix.isEmpty = true →
        (exampleBatch 1 5).writeResult [] (examplePacket 9 9) 42 = .error .assertion ∧
        (exampleBatch 1 5).readResult exampleExternals [] 42 = .error .assertion)) ∧
    (exampleBatch 1 5).resultFilePath 42 = "results/bin000042.png" ∧
    (exampleBatch 1 5).writeResult [] (examplePacket 9 9) 42
      = .ok [("results/bin000042.png", examplePacket 9 9)] ∧
    (exampleBatch 1 5).readResult exampleExternals
        [("results/bin000042.png", examplePacket 9 9)] 42
      = .ok { examplePacket 9 9 with channels := 1 } ∧
    (exampleBatch 1 5).readResult exampleExternals
        [("results/bin000042.png", examplePacket 9 9)] 43 = .ok Mat.empty :=
  ⟨by decide, by decide,
    result_path_roundtrip exampleExternals (exampleBatch 1 5) [] (examplePacket 9 9) 42 43
      (by decide) (by decide),
    by decide, rfl, rfl, rfl⟩

end litiv
